import Mathlib

/-!
# esp32-sqlite3: the ESP32 VFS and FreeRTOS mutex layer of `src/esp32.c`

A shallow embedding of the file-handle code (`esp32_direct_write`,
`esp32_flush_buffer`, `esp32_read`, `esp32_write`, `esp32_sync`,
`esp32_file_size`, `esp32_close`, `esp32_open`), of
`esp32_current_time_int64` and of the `freertosMutex*` functions, followed by
theorems about them.

Conventions of the embedding
* `int` and `sqlite3_int64` values of the file handle are mathematical
  integers (`Int`); the handle theorems concern executions in which no C
  integer overflows or is truncated by a conversion.  `esp32_current_time_int64`, whose whole content is
  arithmetic, wraps its result to 64 bits explicitly.
* A `size_t` count obtained from an `int` is `Int.toNat` of it; every theorem
  below that depends on a count has it non-negative.
* The C library stream (`FILE *`) and the FreeRTOS semaphore are not code of
  `esp32.c`; they are modelled by small state machines (`FILE`, `Semaphore`)
  following the C standard / POSIX and the FreeRTOS API description.  A stream
  carries a script of injected faults so that failing I/O can be expressed.
* A result of `none` stands for an execution that does not return normally
  (undefined behaviour such as an out-of-bounds `memcpy`, a failed `assert`,
  or a loop that has not finished within the iteration budget).
* `SQLITE_ESP32VFS_BUFFERSZ` is a compile-time macro that a build may
  override; it is a parameter `BUFFERSZ` of the functions that use it.
-/

namespace Esp32

/-! ## Result codes and flags of `sqlite3.h` -/

/-- Modelled from the spec: `sqlite3.h` is not under `src/`; the numeric value is the one of the public SQLite header. -/
def SQLITE_OK : Int := 0
/-- Modelled from the spec: value of `SQLITE_BUSY` in `sqlite3.h`. -/
def SQLITE_BUSY : Int := 5
/-- Modelled from the spec: value of `SQLITE_NOMEM` in `sqlite3.h`. -/
def SQLITE_NOMEM : Int := 7
/-- Modelled from the spec: value of `SQLITE_IOERR` in `sqlite3.h`. -/
def SQLITE_IOERR : Int := 10
/-- Modelled from the spec: value of `SQLITE_CANTOPEN` in `sqlite3.h`. -/
def SQLITE_CANTOPEN : Int := 14
/-- Modelled from the spec: value of `SQLITE_IOERR_READ` in `sqlite3.h`, `SQLITE_IOERR | (1<<8)`. -/
def SQLITE_IOERR_READ : Int := 266
/-- Modelled from the spec: value of `SQLITE_IOERR_SHORT_READ` in `sqlite3.h`, `SQLITE_IOERR | (2<<8)`. -/
def SQLITE_IOERR_SHORT_READ : Int := 522
/-- Modelled from the spec: value of `SQLITE_IOERR_FSYNC` in `sqlite3.h`, `SQLITE_IOERR | (4<<8)`. -/
def SQLITE_IOERR_FSYNC : Int := 1034
/-- Modelled from the spec: value of `SQLITE_OPEN_READWRITE` in `sqlite3.h`. -/
def SQLITE_OPEN_READWRITE : Nat := 2
/-- Modelled from the spec: value of `SQLITE_OPEN_CREATE` in `sqlite3.h`. -/
def SQLITE_OPEN_CREATE : Nat := 4
/-- Modelled from the spec: value of `SQLITE_OPEN_MAIN_JOURNAL` in `sqlite3.h`. -/
def SQLITE_OPEN_MAIN_JOURNAL : Nat := 2048
/-- Modelled from the spec: value of `SQLITE_MUTEX_FAST` in `sqlite3.h`. -/
def SQLITE_MUTEX_FAST : Int := 0
/-- Modelled from the spec: value of `SQLITE_MUTEX_RECURSIVE` in `sqlite3.h`. -/
def SQLITE_MUTEX_RECURSIVE : Int := 1

/-! ## The C library stream -/

/-- One byte of file or buffer content (`char`). -/
abbrev Byte := UInt8

/-- Outcome injected into one stream call: `none` lets the call proceed
normally, `some k` makes it fail after transferring at most `k` bytes
(a failing `fseek`, `fflush` or `fopen` transfers nothing). -/
abbrev Fault := Option Nat

/-- A C library stream opened on a file: the bytes of the file, the file
position, the error indicator tested by `ferror`, and the script of faults
consumed by the calls still to come (an exhausted script means no fault). -/
structure FILE where
  data : List Byte
  pos : Nat
  err : Bool
  faults : List Fault
deriving DecidableEq, Repr

/-- Content of a file after `bs` has been written at position `p`: the bytes
are overwritten in place, the file grows as needed, and a gap between the old
end of file and `p` reads as zero bytes.  Writing nothing changes nothing. -/
def writeAt (d : List Byte) (p : Nat) (bs : List Byte) : List Byte :=
  if bs = [] then d
  else d.take p ++ List.replicate (p - d.length) 0 ++ bs ++ d.drop (p + bs.length)

/-- The call `fseek(f, off, SEEK_SET)`: fails (`-1`) on a negative offset or an
injected fault, otherwise sets the position and returns `0`. -/
def fseek (f : FILE) (off : Int) : FILE × Int :=
  match f.faults with
  | some _ :: rest => ({ f with faults := rest, err := true }, -1)
  | none :: rest =>
    if off < 0 then ({ f with faults := rest }, -1)
    else ({ f with faults := rest, pos := off.toNat }, 0)
  | [] =>
    if off < 0 then (f, -1) else ({ f with pos := off.toNat }, 0)

/-- The call `fwrite(buf, 1, n, f)`: returns the number of bytes written.  A
request for zero bytes returns at once; an injected fault `some k` stops the
transfer after at most `k` bytes and sets the error indicator. -/
def fwrite (buf : List Byte) (n : Nat) (f : FILE) : FILE × Nat :=
  if n = 0 then (f, 0)
  else
    match f.faults with
    | some k :: rest =>
      let bs := (buf.take n).take k
      ({ data := writeAt f.data f.pos bs, pos := f.pos + bs.length, err := true,
         faults := rest }, bs.length)
    | none :: rest =>
      let bs := buf.take n
      ({ f with data := writeAt f.data f.pos bs, pos := f.pos + bs.length,
                faults := rest }, bs.length)
    | [] =>
      let bs := buf.take n
      ({ f with data := writeAt f.data f.pos bs, pos := f.pos + bs.length }, bs.length)

/-- The call `fread(zBuf, 1, n, f)`: returns the bytes delivered into `zBuf`
(their number is the return value of `fread`).  Fewer than `n` bytes are
delivered at end of file, or when an injected fault `some k` stops the transfer
after at most `k` bytes, which sets the error indicator. -/
def fread (n : Nat) (f : FILE) : FILE × List Byte :=
  if n = 0 then (f, [])
  else
    match f.faults with
    | some k :: rest =>
      let bs := ((f.data.drop f.pos).take n).take k
      ({ f with pos := f.pos + bs.length, err := true, faults := rest }, bs)
    | none :: rest =>
      let bs := (f.data.drop f.pos).take n
      ({ f with pos := f.pos + bs.length, faults := rest }, bs)
    | [] =>
      let bs := (f.data.drop f.pos).take n
      ({ f with pos := f.pos + bs.length }, bs)

/-- The call `ferror(f)`. -/
def ferror (f : FILE) : Bool := f.err

/-- The call `clearerr(f)`. -/
def clearerr (f : FILE) : FILE := { f with err := false }

/-- The call `fflush(f)`: `0`, or `-1` (`EOF`) on an injected fault. -/
def fflush (f : FILE) : FILE × Int :=
  match f.faults with
  | some _ :: rest => ({ f with faults := rest, err := true }, -1)
  | none :: rest => ({ f with faults := rest }, 0)
  | [] => (f, 0)

/-- The call `fclose(f)`; its result is ignored by the caller. -/
def fclose (f : FILE) : FILE :=
  match f.faults with
  | _ :: rest => { f with faults := rest }
  | [] => f

/-! ## The file handle -/

/-- The struct `esp32_file_t` (the `base` method table is left out). -/
structure esp32_file_t where
  f : FILE
  size : Int
  aBuffer : Option (List Byte)
  nBuffer : Int
  iBufferOfst : Int
deriving DecidableEq, Repr

/-- The function `esp32_direct_write`. -/
def esp32_direct_write (p : esp32_file_t) (zBuf : List Byte) (iAmt : Int) (iOfst : Int) :
    Int × esp32_file_t :=
  let s := fseek p.f iOfst
  if s.2 < 0 then (SQLITE_IOERR, { p with f := s.1 })
  else
    let w := fwrite zBuf iAmt.toNat s.1
    if (w.2 : Int) ≠ iAmt then (SQLITE_IOERR, { p with f := w.1 })
    else if iOfst + iAmt > p.size then (SQLITE_OK, { p with f := w.1, size := iOfst + iAmt })
    else (SQLITE_OK, { p with f := w.1 })

/-- The function `esp32_flush_buffer`. -/
def esp32_flush_buffer (p : esp32_file_t) : Int × esp32_file_t :=
  match p.aBuffer with
  | some buf =>
    let r := esp32_direct_write p buf p.nBuffer p.iBufferOfst
    (r.1, { r.2 with nBuffer := 0 })
  | none => (SQLITE_OK, p)

/-- The function `esp32_close`. -/
def esp32_close (p : esp32_file_t) : Int × esp32_file_t :=
  let r := esp32_flush_buffer p
  (r.1, { r.2 with f := fclose r.2.f })

/-- The function `esp32_read`; the second component is what the call has
stored into `zBuf`. -/
def esp32_read (p : esp32_file_t) (iAmt : Int) (iOfst : Int) :
    Int × List Byte × esp32_file_t :=
  let r := esp32_flush_buffer p
  if r.1 ≠ SQLITE_OK then (r.1, [], r.2)
  else
    let s := fseek r.2.f iOfst
    if s.2 < 0 then (SQLITE_IOERR_READ, [], { r.2 with f := s.1 })
    else
      let d := fread iAmt.toNat s.1
      if (d.2.length : Int) = iAmt then (SQLITE_OK, d.2, { r.2 with f := d.1 })
      else if ferror d.1 then (SQLITE_IOERR_READ, d.2, { r.2 with f := clearerr d.1 })
      else (SQLITE_IOERR_SHORT_READ, d.2, { r.2 with f := d.1 })

/-- The call `memcpy(&dst[off], src, n)` on a destination array `dst`. -/
def memcpy (dst : List Byte) (off : Nat) (src : List Byte) (n : Nat) : List Byte :=
  dst.take off ++ src.take n ++ dst.drop (off + n)

/-- Outcome of one iteration of the loop of `esp32_write`: the flush failed
and the function returns `rc`, or `nCopy` bytes were staged. -/
inductive WriteStep where
  | failed (rc : Int) (p : esp32_file_t)
  | copied (nCopy : Int) (p : esp32_file_t)
deriving DecidableEq, Repr

/-- The body of the `while (n > 0)` loop of `esp32_write`, at remaining source
`z`, remaining count `n` and current offset `i`.  `none`: the `assert` fails,
or the `memcpy` leaves the staging buffer or the source. -/
def esp32_write_step (BUFFERSZ : Int) (p : esp32_file_t) (z : List Byte) (n : Int) (i : Int) :
    Option WriteStep :=
  let r := if p.nBuffer = BUFFERSZ ∨ p.iBufferOfst + p.nBuffer ≠ i
           then esp32_flush_buffer p else (SQLITE_OK, p)
  if r.1 ≠ SQLITE_OK then some (.failed r.1 r.2)
  else if ¬ (r.2.nBuffer = 0 ∨ r.2.iBufferOfst + r.2.nBuffer = i) then none
  else
    let p1 := { r.2 with iBufferOfst := i - r.2.nBuffer }
    let nCopy := if BUFFERSZ - p1.nBuffer > n then n else BUFFERSZ - p1.nBuffer
    match p1.aBuffer with
    | none => none
    | some buf =>
      if nCopy < 0 ∨ p1.nBuffer < 0 ∨ p1.nBuffer + nCopy > buf.length ∨ nCopy > z.length
      then none
      else some (.copied nCopy
        { p1 with aBuffer := some (memcpy buf p1.nBuffer.toNat z nCopy.toNat),
                  nBuffer := p1.nBuffer + nCopy })

/-- The `while (n > 0)` loop of `esp32_write`, run for at most `fuel`
iterations. -/
def esp32_write_loop (BUFFERSZ : Int) :
    Nat → esp32_file_t → List Byte → Int → Int → Option (Int × esp32_file_t)
  | fuel, p, z, n, i =>
    if n > 0 then
      match fuel with
      | 0 => none
      | fuel + 1 =>
        match esp32_write_step BUFFERSZ p z n i with
        | none => none
        | some (.failed rc p1) => some (rc, p1)
        | some (.copied nCopy p1) =>
          esp32_write_loop BUFFERSZ fuel p1 (z.drop nCopy.toNat) (n - nCopy) (i + nCopy)
    else some (SQLITE_OK, p)

/-- The function `esp32_write`.  The loop gets an iteration budget of `iAmt`;
`esp32_write_loop_fuel_mono` shows that a larger budget changes nothing. -/
def esp32_write (BUFFERSZ : Int) (p : esp32_file_t) (zBuf : List Byte) (iAmt : Int)
    (iOfst : Int) : Option (Int × esp32_file_t) :=
  match p.aBuffer with
  | none => some (esp32_direct_write p zBuf iAmt iOfst)
  | some _ => esp32_write_loop BUFFERSZ iAmt.toNat p zBuf iAmt iOfst

/-- The function `esp32_sync`. -/
def esp32_sync (p : esp32_file_t) : Int × esp32_file_t :=
  let r := esp32_flush_buffer p
  if r.1 ≠ SQLITE_OK then r
  else
    let s := fflush r.2.f
    (if s.2 = 0 then SQLITE_OK else SQLITE_IOERR_FSYNC, { r.2 with f := s.1 })

/-- The function `esp32_file_size`; the second component is `*pSize`, written
only on success. -/
def esp32_file_size (p : esp32_file_t) : Int × Option Int × esp32_file_t :=
  let r := esp32_flush_buffer p
  if r.1 ≠ SQLITE_OK then (r.1, none, r.2)
  else (SQLITE_OK, some r.2.size, r.2)

/-- A write request `(zBuf, iAmt, iOfst)` as passed to `esp32_write`. -/
structure WriteReq where
  zBuf : List Byte
  iAmt : Int
  iOfst : Int
deriving DecidableEq, Repr

/-- A sequence of calls of `esp32_write` on one handle, in order; the result
is the list of the returned codes and the final handle, or `none` when one of
the calls does not return. -/
def runWrites (BUFFERSZ : Int) : esp32_file_t → List WriteReq → Option (List Int × esp32_file_t)
  | p, [] => some ([], p)
  | p, w :: ws =>
    match esp32_write BUFFERSZ p w.zBuf w.iAmt w.iOfst with
    | none => none
    | some r =>
      match runWrites BUFFERSZ r.2 ws with
      | none => none
      | some t => some (r.1 :: t.1, t.2)

/-! ## Opening a file -/

/-- The mode string given to `fopen`: `"r"`, `"r+"` or `"w+"`. -/
inductive Mode where
  | r
  | rPlus
  | wPlus
deriving DecidableEq, Repr

/-- What `esp32_open` sees of the platform: the files that exist with their
content, whether `sqlite3_malloc` succeeds, whether `fopen` fails for a reason
of its own (no free descriptor, no space, a missing directory), and the fault
script of the stream that `fopen` returns. -/
structure Platform where
  files : List (String × List Byte)
  mallocOk : Bool
  fopenFault : Bool
  faults : List Fault
deriving DecidableEq, Repr

/-- The call `stat(zName, &st)`: `st.st_size` when the file exists, `none` for
a result `< 0`. -/
def stat (pl : Platform) (zName : String) : Option Nat :=
  (pl.files.lookup zName).map List.length

/-- The call `fopen(zName, mode)`: `"r"` and `"r+"` need an existing file,
`"w+"` creates the file or truncates it; `none` is the `NULL` result.  The
stream does not record its mode: writing to a stream opened with `"r"` is
outside the model. -/
def fopen (pl : Platform) (zName : String) (mode : Mode) : Option FILE :=
  if pl.fopenFault then none
  else
    match mode, pl.files.lookup zName with
    | .wPlus, _ => some { data := [], pos := 0, err := false, faults := pl.faults }
    | _, some d => some { data := d, pos := 0, err := false, faults := pl.faults }
    | _, none => none

/-- The function `esp32_open`: the returned code and, on success, the handle
it has initialised (`memset` to zero, then `f`, `aBuffer` and `size`).  `zName`
is `none` for a `NULL` pointer.  The `pOutFlags` output, a copy of `flags`, is
left out.  The staging buffer is requested under `0 && flags & ...`, that is
never. -/
def esp32_open (BUFFERSZ : Int) (pl : Platform) (zName : Option String) (flags : Nat) :
    Int × Option esp32_file_t :=
  match zName with
  | none => (SQLITE_IOERR, none)
  | some name =>
    let wantBuf : Bool := false && (flags &&& SQLITE_OPEN_MAIN_JOURNAL != 0)
    if wantBuf && !pl.mallocOk then (SQLITE_NOMEM, none)
    else
      let aBuf : Option (List Byte) :=
        if wantBuf then some (List.replicate BUFFERSZ.toNat 0) else none
      let st := stat pl name
      let exist : Bool := st.isSome
      if !exist && (flags &&& SQLITE_OPEN_CREATE == 0) then (SQLITE_CANTOPEN, none)
      else
        let mode : Mode :=
          if flags &&& SQLITE_OPEN_READWRITE != 0 then (if exist then .rPlus else .wPlus)
          else .r
        match fopen pl name mode with
        | none => (SQLITE_CANTOPEN, none)
        | some f =>
          (SQLITE_OK, some { f := f, size := if exist then (st.getD 0 : Nat) else 0,
                             aBuffer := aBuf, nBuffer := 0, iBufferOfst := 0 })

/-! ## Time -/

/-- Value of a `sqlite3_int64` after an arithmetic operation whose exact
result is `x` (two's complement wrap-around). -/
def toInt64 (x : Int) : Int := (x + 9223372036854775808) % 18446744073709551616 - 9223372036854775808

/-- The constant `unixEpoch` of `esp32_current_time_int64`. -/
def unixEpoch : Int := toInt64 (24405875 * 8640000)

/-- The function `esp32_current_time_int64` for a clock reading
`(tv_sec, tv_usec)` of `gettimeofday`: the returned code and `*piNow`. -/
def esp32_current_time_int64 (tv_sec : Int) (tv_usec : Int) : Int × Int :=
  (SQLITE_OK, toInt64 (toInt64 (unixEpoch + toInt64 (1000 * tv_sec)) + Int.tdiv tv_usec 1000))

/-! ## The FreeRTOS mutex -/

/-- A FreeRTOS task handle. -/
abbrev TaskHandle := Nat

/-- A FreeRTOS mutex-type semaphore: the task that holds it, if any, and the
recursive call count of that holder. -/
structure Semaphore where
  holder : Option TaskHandle
  count : Nat
deriving DecidableEq, Repr

/-- The calls `xSemaphoreCreateMutex()` and `xSemaphoreCreateRecursiveMutex()`:
a free semaphore, or `none` (`NULL`) when the heap is exhausted. -/
def xSemaphoreCreate (heapOk : Bool) : Option Semaphore :=
  if heapOk then some { holder := none, count := 0 } else none

/-- The call `xSemaphoreTakeRecursive(m, ticks)` made by task `t`, with
`wait = true` for `portMAX_DELAY` and `wait = false` for `0` ticks: `pdTRUE`
(`true`) when the semaphore is free or already held by `t`, whose count grows;
otherwise `pdFALSE` at once without waiting, and no return (`none`) while
waiting. -/
def xSemaphoreTakeRecursive (m : Semaphore) (t : TaskHandle) (wait : Bool) :
    Option (Semaphore × Bool) :=
  match m.holder with
  | none => some ({ holder := some t, count := 1 }, true)
  | some o =>
    if o = t then some ({ m with count := m.count + 1 }, true)
    else if wait then none else some (m, false)

/-- The call `xSemaphoreTake(m, ticks)` made by task `t` on a plain mutex:
`pdTRUE` when the mutex is free; otherwise `pdFALSE` at once without waiting,
and no return (`none`) while waiting, also when `t` itself is the holder. -/
def xSemaphoreTake (m : Semaphore) (t : TaskHandle) (wait : Bool) :
    Option (Semaphore × Bool) :=
  match m.holder with
  | none => some ({ holder := some t, count := 0 }, true)
  | some _ => if wait then none else some (m, false)

/-- The call `xSemaphoreGiveRecursive(m)` made by task `t`: only the holder
can give; the mutex becomes free when its count returns to zero. -/
def xSemaphoreGiveRecursive (m : Semaphore) (t : TaskHandle) : Semaphore × Bool :=
  if m.holder = some t then
    (if m.count - 1 = 0 then { holder := none, count := 0 }
     else { m with count := m.count - 1 }, true)
  else (m, false)

/-- The call `xSemaphoreGive(m)` on a plain mutex: a held mutex becomes free. -/
def xSemaphoreGive (m : Semaphore) : Semaphore × Bool :=
  match m.holder with
  | some _ => ({ holder := none, count := 0 }, true)
  | none => (m, false)

/-- The struct `sqlite3_mutex`; `mutex` is `none` for a `NULL` semaphore
handle. -/
structure sqlite3_mutex where
  mutex : Option Semaphore
  id : Int
deriving DecidableEq, Repr

/-- The function `freertosMutexAlloc`; `callocOk` and `heapOk` say whether
`calloc` and the semaphore creation find memory.  `none` is the `NULL`
result. -/
def freertosMutexAlloc (callocOk : Bool) (heapOk : Bool) (id : Int) : Option sqlite3_mutex :=
  if !callocOk then none
  else
    some { id := id,
           mutex := if id = SQLITE_MUTEX_RECURSIVE then xSemaphoreCreate heapOk
                    else xSemaphoreCreate heapOk }

/-- The function `freertosMutexEnter` called by task `t`; `none` when the call
does not return (the task stays blocked, or the semaphore handle is `NULL`). -/
def freertosMutexEnter (p : sqlite3_mutex) (t : TaskHandle) : Option sqlite3_mutex :=
  match p.mutex with
  | none => none
  | some m =>
    if p.id = SQLITE_MUTEX_RECURSIVE then
      (xSemaphoreTakeRecursive m t true).map fun r => { p with mutex := some r.1 }
    else
      (xSemaphoreTake m t true).map fun r => { p with mutex := some r.1 }

/-- The function `freertosMutexTry` called by task `t`: the returned code and
the mutex afterwards; `none` only for a `NULL` semaphore handle. -/
def freertosMutexTry (p : sqlite3_mutex) (t : TaskHandle) : Option (Int × sqlite3_mutex) :=
  match p.mutex with
  | none => none
  | some m =>
    let rc := if p.id = SQLITE_MUTEX_RECURSIVE then xSemaphoreTakeRecursive m t false
              else xSemaphoreTake m t false
    rc.map fun r => (if r.2 = true then SQLITE_OK else SQLITE_BUSY, { p with mutex := some r.1 })

/-- The function `freertosMutexLeave` called by task `t`; `none` only for a
`NULL` semaphore handle. -/
def freertosMutexLeave (p : sqlite3_mutex) (t : TaskHandle) : Option sqlite3_mutex :=
  match p.mutex with
  | none => none
  | some m =>
    if p.id = SQLITE_MUTEX_RECURSIVE then
      some { p with mutex := some (xSemaphoreGiveRecursive m t).1 }
    else
      some { p with mutex := some (xSemaphoreGive m).1 }

/-- Task `t` acquires the mutex once per entry of `how`, in order: through
`freertosMutexTry` for `true` (which has to return `SQLITE_OK`), through
`freertosMutexEnter` for `false`. -/
def enterTimes (t : TaskHandle) : List Bool → sqlite3_mutex → Option sqlite3_mutex
  | [], p => some p
  | true :: how, p =>
    match freertosMutexTry p t with
    | some (rc, q) => if rc = SQLITE_OK then enterTimes t how q else none
    | none => none
  | false :: how, p =>
    match freertosMutexEnter p t with
    | some q => enterTimes t how q
    | none => none

/-- Task `t` calls `freertosMutexLeave` `k` times. -/
def leaveTimes (t : TaskHandle) : Nat → sqlite3_mutex → Option sqlite3_mutex
  | 0, p => some p
  | k + 1, p =>
    match freertosMutexLeave p t with
    | some q => leaveTimes t k q
    | none => none

/-! ## Invariants and abstraction of a handle -/

/-- The buffer occupancy is in bounds, and the staging buffer, when there is
one, is an array of `BUFFERSZ` bytes (as allocated by `esp32_open`). -/
def BufferOk (BUFFERSZ : Int) (h : esp32_file_t) : Prop :=
  0 ≤ h.nBuffer ∧ h.nBuffer ≤ BUFFERSZ ∧
    ∀ buf, h.aBuffer = some buf → (buf.length : Int) = BUFFERSZ

/-- All underlying I/O of the handle succeeds: no fault is injected into its
stream and the offset recorded for the staging buffer can be seeked to. -/
def Quiet (h : esp32_file_t) : Prop :=
  h.f.faults = [] ∧ 0 ≤ h.iBufferOfst

/-- What the handle stands for: the file content and the logical size once the
staged bytes are applied to the stream (`esp32_flush_buffer_quiet` shows that
a flush produces exactly this). -/
def view (h : esp32_file_t) : List Byte × Int :=
  match h.aBuffer with
  | some buf =>
    (writeAt h.f.data h.iBufferOfst.toNat (buf.take h.nBuffer.toNat),
      max h.size (h.iBufferOfst + h.nBuffer))
  | none => (h.f.data, h.size)

instance BufferOk.decidable (BUFFERSZ : Int) (h : esp32_file_t) :
    Decidable (BufferOk BUFFERSZ h) :=
  decidable_of_iff
    (0 ≤ h.nBuffer ∧ h.nBuffer ≤ BUFFERSZ ∧
      (h.aBuffer.all fun buf => decide ((buf.length : Int) = BUFFERSZ)) = true)
    (by
      unfold BufferOk
      cases h.aBuffer <;> simp)

instance Quiet.decidable (h : esp32_file_t) : Decidable (Quiet h) := by
  unfold Quiet
  infer_instance

/-- The effect of a sequence of writes on the file itself: each request
overwrites its byte range and raises the size to its end offset. -/
def applyWrites (v : List Byte × Int) : List WriteReq → List Byte × Int
  | [] => v
  | w :: ws =>
    applyWrites (writeAt v.1 w.iOfst.toNat (w.zBuf.take w.iAmt.toNat),
      max v.2 (w.iOfst + w.iAmt)) ws

/-- The maximum of `S` and of every end offset `iOfst + iAmt` of the requests. -/
def maxEnd (S : Int) : List WriteReq → Int
  | [] => S
  | w :: ws => maxEnd (max S (w.iOfst + w.iAmt)) ws

/-- A request that `esp32_write` can serve: `zBuf` holds at least `iAmt ≥ 0`
bytes and the offset is not negative. -/
def WriteReq.Valid (w : WriteReq) : Prop :=
  0 ≤ w.iAmt ∧ w.iAmt ≤ w.zBuf.length ∧ 0 ≤ w.iOfst

instance WriteReq.Valid.decidable (w : WriteReq) : Decidable w.Valid := by
  unfold WriteReq.Valid
  infer_instance

/-- The requests cover adjacent byte ranges in increasing order, the first one
starting at offset `o`: `o_1 = o` and `o_{j+1} = o_j + n_j`. -/
def ContiguousFrom : Int → List WriteReq → Prop
  | _, [] => True
  | o, w :: ws => w.iOfst = o ∧ ContiguousFrom (o + w.iAmt) ws

instance ContiguousFrom.decidable : ∀ (o : Int) (ws : List WriteReq),
    Decidable (ContiguousFrom o ws)
  | _, [] => isTrue trivial
  | o, w :: ws =>
    @instDecidableAnd _ _ _ (ContiguousFrom.decidable (o + w.iAmt) ws)

/-! ## Concrete inputs used by the closed theorems -/

/-- A platform without any file, on which every call succeeds. -/
def plEmpty : Platform := { files := [], mallocOk := true, fopenFault := false, faults := [] }

/-- A stream on an empty file, without faults. -/
def fEmpty : FILE := { data := [], pos := 0, err := false, faults := [] }

/-- An unbuffered handle on a file of three bytes, without faults. -/
def hThree : esp32_file_t :=
  { f := { data := [1, 2, 3], pos := 0, err := false, faults := [] }, size := 3,
    aBuffer := none, nBuffer := 0, iBufferOfst := 0 }

/-- A fresh handle on an empty file with a staging buffer of 4 bytes. -/
def hBuf4 : esp32_file_t :=
  { f := fEmpty, size := 0, aBuffer := some [0, 0, 0, 0], nBuffer := 0, iBufferOfst := 0 }

/-- A handle on an empty file whose staging buffer of 2 bytes is full: it
holds the bytes `1, 2` for the offsets `[0, 2)`. -/
def hFull2 : esp32_file_t :=
  { f := fEmpty, size := 0, aBuffer := some [1, 2], nBuffer := 2, iBufferOfst := 0 }

/-- A handle on an empty file whose staging buffer of 4 bytes holds the bytes
`1, 2` for the offsets `[0, 2)`. -/
def hHalf4 : esp32_file_t :=
  { f := fEmpty, size := 0, aBuffer := some [1, 2, 0, 0], nBuffer := 2, iBufferOfst := 0 }

/-- A handle whose staging buffer of 4 bytes holds the bytes `1, 2` for the
offsets `[0, 2)` and whose stream fails at its second call. -/
def hFaulty : esp32_file_t :=
  { f := { data := [], pos := 0, err := false, faults := [none, some 1] }, size := 0,
    aBuffer := some [1, 2, 0, 0], nBuffer := 2, iBufferOfst := 0 }

/-! ## Theorems -/

/-! ## `esp32_current_time_int64` -/

theorem toInt64_of_range (x : Int) (h1 : -9223372036854775808 ≤ x)
    (h2 : x < 9223372036854775808) : toInt64 x = x := by
  unfold toInt64
  omega

/-- C8, as stated, fails: at the clock reading `(0, 0)`, the Unix epoch itself,
`esp32_current_time_int64` does not store `1000*0 + 0/1000 = 0`. -/
theorem C8_counterexample :
    (esp32_current_time_int64 0 0).2 ≠ 1000 * 0 + 0 / 1000 := by
  decide

/-- C8, amended: for a clock reading `(tv_sec, tv_usec)` with `tv_sec ≥ 0` and
`tv_usec ≥ 0` whose result fits a signed 64-bit integer,
`esp32_current_time_int64` returns `SQLITE_OK` and stores
`unixEpoch + 1000*tv_sec + tv_usec/1000` with
`unixEpoch = 24405875*8640000 = 210866760000000`: the milliseconds since the
Julian-day epoch, not since the Unix epoch. -/
theorem C8_time_int64 (tv_sec tv_usec : Int) (hs : 0 ≤ tv_sec) (hu : 0 ≤ tv_usec)
    (hfit : 210866760000000 + 1000 * tv_sec + tv_usec / 1000 < 9223372036854775808) :
    esp32_current_time_int64 tv_sec tv_usec =
      (SQLITE_OK, 210866760000000 + 1000 * tv_sec + tv_usec / 1000) := by
  have hdiv : Int.tdiv tv_usec 1000 = tv_usec / 1000 :=
    Int.tdiv_eq_ediv hu (by norm_num)
  have hq : 0 ≤ tv_usec / 1000 := Int.ediv_nonneg hu (by norm_num)
  have he : unixEpoch = 210866760000000 := by decide
  unfold esp32_current_time_int64
  rw [hdiv, he, toInt64_of_range (1000 * tv_sec) (by omega) (by omega),
    toInt64_of_range (210866760000000 + 1000 * tv_sec) (by omega) (by omega),
    toInt64_of_range _ (by omega) (by omega)]

theorem C8_time_int64_witness :
    esp32_current_time_int64 1700000000 999999 = (SQLITE_OK, 212566760000999) :=
  C8_time_int64 1700000000 999999 (by decide) (by decide) (by decide)

/-! ## `freertosMutexAlloc` -/

/-- C7, evaluated on the code: when `calloc` succeeds and the creation of the
native semaphore fails, `freertosMutexAlloc` returns, for every id, a non-null
control block whose semaphore handle is `NULL`. -/
theorem C7_alloc_semaphore_failure (id : Int) :
    freertosMutexAlloc true false id = some { mutex := none, id := id } ∧
    freertosMutexAlloc true false id ≠ none := by
  simp [freertosMutexAlloc, xSemaphoreCreate]

/-! ## `esp32_open` -/

/-- C3, as stated, fails: on a platform without any file, opening `db` with
the create flag alone does not return `SQLITE_OK`. -/
theorem C3_counterexample :
    stat plEmpty "db" = none ∧ SQLITE_OPEN_CREATE &&& SQLITE_OPEN_CREATE ≠ 0 ∧
    (esp32_open 8192 plEmpty (some "db") SQLITE_OPEN_CREATE).1 ≠ SQLITE_OK := by
  decide

/-- C3, amended: for a non-null path that does not exist, `esp32_open` returns
`SQLITE_CANTOPEN` when the create flag is not set; when the create flag and
the read-write flag are both set and `fopen` does not fail, it returns
`SQLITE_OK` and the new handle has logical size 0 (also as reported by
`esp32_file_size`) on an empty file; when the create flag is set without the
read-write flag (the file is then opened with mode `"r"`), or `fopen` fails,
it returns `SQLITE_CANTOPEN`. -/
theorem C3_open_missing_path (BUFFERSZ : Int) (pl : Platform) (name : String) (flags : Nat)
    (hmiss : stat pl name = none) :
    (flags &&& SQLITE_OPEN_CREATE = 0 →
      esp32_open BUFFERSZ pl (some name) flags = (SQLITE_CANTOPEN, none)) ∧
    (flags &&& SQLITE_OPEN_CREATE ≠ 0 → flags &&& SQLITE_OPEN_READWRITE ≠ 0 →
      pl.fopenFault = false →
      ∃ h, esp32_open BUFFERSZ pl (some name) flags = (SQLITE_OK, some h) ∧ h.size = 0 ∧
        h.f.data = [] ∧ esp32_file_size h = (SQLITE_OK, some 0, h)) ∧
    (flags &&& SQLITE_OPEN_CREATE ≠ 0 →
      flags &&& SQLITE_OPEN_READWRITE = 0 ∨ pl.fopenFault = true →
      esp32_open BUFFERSZ pl (some name) flags = (SQLITE_CANTOPEN, none)) := by
  have hlook : pl.files.lookup name = none := by
    simpa [stat] using hmiss
  refine ⟨?_, ?_, ?_⟩
  · intro hc
    simp [esp32_open, hmiss, hc]
  · intro hc hrw hf
    simp [esp32_open, hmiss, hc, hrw, fopen, hf, esp32_file_size, esp32_flush_buffer]
  · intro hc hor
    rcases hor with hrw | hf
    · simp [esp32_open, hmiss, hc, hrw, fopen, hlook]
    · simp [esp32_open, hmiss, hc, fopen, hf]

theorem C3_open_missing_path_witness :
    esp32_open 8192 plEmpty (some "db") 2 = (SQLITE_CANTOPEN, none) ∧
    (∃ h, esp32_open 8192 plEmpty (some "db") 6 = (SQLITE_OK, some h) ∧ h.size = 0 ∧
      h.f.data = [] ∧ esp32_file_size h = (SQLITE_OK, some 0, h)) ∧
    esp32_open 8192 plEmpty (some "db") 4 = (SQLITE_CANTOPEN, none) :=
  ⟨(C3_open_missing_path 8192 plEmpty "db" 2 (by decide)).1 (by decide),
    (C3_open_missing_path 8192 plEmpty "db" 6 (by decide)).2.1 (by decide) (by decide)
      (by decide),
    (C3_open_missing_path 8192 plEmpty "db" 4 (by decide)).2.2 (by decide)
      (Or.inl (by decide))⟩

/-! ## The mutex: hold count -/

theorem enterTimes_recursive_held (a : TaskHandle) (how : List Bool) (c : Nat) :
    enterTimes a how { mutex := some { holder := some a, count := c },
                       id := SQLITE_MUTEX_RECURSIVE } =
      some { mutex := some { holder := some a, count := c + how.length },
             id := SQLITE_MUTEX_RECURSIVE } := by
  induction how generalizing c with
  | nil => simp [enterTimes]
  | cons x how ih =>
    cases x
    · simp [enterTimes, freertosMutexEnter, xSemaphoreTakeRecursive, ih, Nat.add_assoc,
        Nat.add_comm 1]
    · simp [enterTimes, freertosMutexTry, xSemaphoreTakeRecursive, ih, Nat.add_assoc,
        Nat.add_comm 1]

theorem enterTimes_recursive_fresh (a : TaskHandle) (x : Bool) (how : List Bool) :
    enterTimes a (x :: how) { mutex := some { holder := none, count := 0 },
                              id := SQLITE_MUTEX_RECURSIVE } =
      some { mutex := some { holder := some a, count := (x :: how).length },
             id := SQLITE_MUTEX_RECURSIVE } := by
  cases x
  · simp [enterTimes, freertosMutexEnter, xSemaphoreTakeRecursive,
      enterTimes_recursive_held, Nat.add_comm 1]
  · simp [enterTimes, freertosMutexTry, xSemaphoreTakeRecursive,
      enterTimes_recursive_held, Nat.add_comm 1]

theorem leaveTimes_recursive_lt (a : TaskHandle) (k c : Nat) (h : k < c) :
    leaveTimes a k { mutex := some { holder := some a, count := c },
                     id := SQLITE_MUTEX_RECURSIVE } =
      some { mutex := some { holder := some a, count := c - k },
             id := SQLITE_MUTEX_RECURSIVE } := by
  induction k generalizing c with
  | zero => simp [leaveTimes]
  | succ k ih =>
    have h1 : ¬ (c - 1 = 0) := by omega
    have h2 : k < c - 1 := by omega
    have h3 : c - 1 - k = c - (k + 1) := by omega
    simp [leaveTimes, freertosMutexLeave, xSemaphoreGiveRecursive, h1, ih (c - 1) h2, h3]

theorem leaveTimes_recursive_all (a : TaskHandle) (c : Nat) :
    leaveTimes a (c + 1) { mutex := some { holder := some a, count := c + 1 },
                           id := SQLITE_MUTEX_RECURSIVE } =
      some { mutex := some { holder := none, count := 0 },
             id := SQLITE_MUTEX_RECURSIVE } := by
  induction c with
  | zero => simp [leaveTimes, freertosMutexLeave, xSemaphoreGiveRecursive]
  | succ c ih =>
    rw [leaveTimes]
    simp [freertosMutexLeave, xSemaphoreGiveRecursive, ih]

/-- C6: take a mutex allocated by `freertosMutexAlloc` (both allocations
succeeding) and two different tasks `a` and `b`.  If the id is
`SQLITE_MUTEX_RECURSIVE`, then for every non-empty list `how` of `N` entries
made by `a` (each through `freertosMutexEnter` or `freertosMutexTry`) all
entries succeed, and after any `k < N` calls of `freertosMutexLeave` by `a` a
`freertosMutexTry` by `b` returns `SQLITE_BUSY` at once and leaves the mutex as
it is, while after the `N`-th leave it returns `SQLITE_OK`.  For any other id,
one entry by `a` makes the `freertosMutexTry` of `b` return `SQLITE_BUSY`, and
after one `freertosMutexLeave` by `a` it returns `SQLITE_OK`. -/
theorem C6_mutex_hold_count (id : Int) (a b : TaskHandle) (hab : a ≠ b) :
    (id = SQLITE_MUTEX_RECURSIVE → ∀ how : List Bool, 1 ≤ how.length →
      ∃ p pN, freertosMutexAlloc true true id = some p ∧ enterTimes a how p = some pN ∧
        (∀ k, k < how.length → ∃ q, leaveTimes a k pN = some q ∧
          freertosMutexTry q b = some (SQLITE_BUSY, q)) ∧
        ∃ q q2, leaveTimes a how.length pN = some q ∧
          freertosMutexTry q b = some (SQLITE_OK, q2)) ∧
    (id ≠ SQLITE_MUTEX_RECURSIVE → ∀ via : Bool,
      ∃ p p1, freertosMutexAlloc true true id = some p ∧ enterTimes a [via] p = some p1 ∧
        freertosMutexTry p1 b = some (SQLITE_BUSY, p1) ∧
        ∃ q q2, freertosMutexLeave p1 a = some q ∧
          freertosMutexTry q b = some (SQLITE_OK, q2)) := by
  have hba : ¬ (a = b) := hab
  constructor
  · rintro rfl how hN
    obtain ⟨x, rest, rfl⟩ : ∃ x rest, how = x :: rest := by
      cases how with
      | nil => simp at hN
      | cons x rest => exact ⟨x, rest, rfl⟩
    refine ⟨_, _, by simp [freertosMutexAlloc, xSemaphoreCreate],
      enterTimes_recursive_fresh a x rest, ?_, ?_⟩
    · intro k hk
      refine ⟨_, leaveTimes_recursive_lt a k _ hk, ?_⟩
      simp [freertosMutexTry, xSemaphoreTakeRecursive, hba]
    · refine ⟨_, { mutex := some { holder := some b, count := 1 },
                   id := SQLITE_MUTEX_RECURSIVE },
        leaveTimes_recursive_all a rest.length, ?_⟩
      simp [freertosMutexTry, xSemaphoreTakeRecursive]
  · intro hid via
    cases via
    · simp [freertosMutexAlloc, xSemaphoreCreate, enterTimes, freertosMutexEnter, hid,
        xSemaphoreTake, freertosMutexTry, freertosMutexLeave, xSemaphoreGive]
    · simp [freertosMutexAlloc, xSemaphoreCreate, enterTimes, freertosMutexTry, hid,
        xSemaphoreTake, freertosMutexLeave, xSemaphoreGive]

theorem C6_mutex_hold_count_witness :
    (∃ p pN, freertosMutexAlloc true true 1 = some p ∧
      enterTimes 7 [false, true, false] p = some pN ∧
      (∀ k, k < 3 → ∃ q, leaveTimes 7 k pN = some q ∧
        freertosMutexTry q 8 = some (SQLITE_BUSY, q)) ∧
      ∃ q q2, leaveTimes 7 3 pN = some q ∧ freertosMutexTry q 8 = some (SQLITE_OK, q2)) ∧
    (∃ p p1, freertosMutexAlloc true true 0 = some p ∧ enterTimes 7 [false] p = some p1 ∧
      freertosMutexTry p1 8 = some (SQLITE_BUSY, p1) ∧
      ∃ q q2, freertosMutexLeave p1 7 = some q ∧
        freertosMutexTry q 8 = some (SQLITE_OK, q2)) :=
  ⟨(C6_mutex_hold_count 1 7 8 (by decide)).1 rfl [false, true, false] (by decide),
    (C6_mutex_hold_count 0 7 8 (by decide)).2 (by decide) false⟩

/-! ## `esp32_read`: status codes -/

/-- C4: let the flush of `esp32_read` succeed and `iAmt ≥ 0`; write `s` for the
`fseek` to `iOfst` on the flushed handle and `d` for the `fread` of `iAmt`
bytes that follows a successful seek.  Then `esp32_read` returns `SQLITE_OK`
exactly when the seek succeeds and the stream delivers `iAmt` bytes;
`SQLITE_IOERR_SHORT_READ` exactly when the seek succeeds, fewer than `iAmt`
bytes are delivered and the stream has no error; `SQLITE_IOERR_READ` exactly
when the seek fails, or fewer bytes are delivered and the stream reports an
error, and in this last case the error indicator is clear afterwards.  In all
cases after a successful seek, `zBuf` holds the delivered bytes. -/
theorem C4_read_status (p : esp32_file_t) (iAmt iOfst : Int) (hn : 0 ≤ iAmt)
    (hflush : (esp32_flush_buffer p).1 = SQLITE_OK) :
    let q := (esp32_flush_buffer p).2
    let s := fseek q.f iOfst
    let d := fread iAmt.toNat s.1
    let r := esp32_read p iAmt iOfst
    (r.1 = SQLITE_OK ↔ s.2 = 0 ∧ (d.2.length : Int) = iAmt) ∧
    (r.1 = SQLITE_IOERR_SHORT_READ ↔
      s.2 = 0 ∧ (d.2.length : Int) < iAmt ∧ ferror d.1 = false) ∧
    (r.1 = SQLITE_IOERR_READ ↔
      s.2 < 0 ∨ (s.2 = 0 ∧ (d.2.length : Int) < iAmt ∧ ferror d.1 = true)) ∧
    (s.2 = 0 → (d.2.length : Int) < iAmt → ferror d.1 = true →
      ferror r.2.2.f = false) ∧
    (s.2 = 0 → r.2.1 = d.2) := by
  intro q s d r
  have hs : s.2 = 0 ∨ s.2 = -1 := by
    show (fseek q.f iOfst).2 = 0 ∨ (fseek q.f iOfst).2 = -1
    unfold fseek
    split <;> (try split) <;> simp
  have hd : (d.2.length : Int) ≤ iAmt := by
    have : d.2.length ≤ iAmt.toNat := by
      show (fread iAmt.toNat s.1).2.length ≤ iAmt.toNat
      unfold fread
      split
      · simp
      · split <;> simp [List.length_take]
    omega
  have hr : r = (if s.2 < 0 then (SQLITE_IOERR_READ, [], { q with f := s.1 })
      else if (d.2.length : Int) = iAmt then (SQLITE_OK, d.2, { q with f := d.1 })
      else if ferror d.1 then (SQLITE_IOERR_READ, d.2, { q with f := clearerr d.1 })
      else (SQLITE_IOERR_SHORT_READ, d.2, { q with f := d.1 })) := by
    show esp32_read p iAmt iOfst = _
    unfold esp32_read
    simp [hflush]
  rcases hs with h0 | h1
  · by_cases hlen : (d.2.length : Int) = iAmt
    · simp [hr, h0, hlen, SQLITE_OK, SQLITE_IOERR_SHORT_READ, SQLITE_IOERR_READ]
    · have hlt : (d.2.length : Int) < iAmt := lt_of_le_of_ne hd hlen
      cases he : d.1.err <;>
        simp [hr, h0, hlen, hlt, he, SQLITE_OK, SQLITE_IOERR_SHORT_READ, SQLITE_IOERR_READ,
          ferror, clearerr]
  · simp [hr, h1, SQLITE_OK, SQLITE_IOERR_SHORT_READ, SQLITE_IOERR_READ]

theorem C4_read_status_witness :
    (esp32_read hThree 4 1).1 = SQLITE_IOERR_SHORT_READ :=
  (C4_read_status hThree 4 1 (by decide) (by decide)).2.1.mpr (by decide)

/-! ## File content: `writeAt` -/

/-- The part of the file in front of position `p` after a write at `p`: the
old bytes, padded with zero bytes up to `p`. -/
theorem length_take_pad (d : List Byte) (p : Nat) :
    (d.take p ++ List.replicate (p - d.length) (0 : Byte)).length = p := by
  simp [List.length_take]
  omega

theorem writeAt_nil (d : List Byte) (p : Nat) : writeAt d p [] = d := by
  simp [writeAt]

theorem writeAt_of_ne_nil (d : List Byte) (p : Nat) (bs : List Byte) (h : bs ≠ []) :
    writeAt d p bs =
      (d.take p ++ List.replicate (p - d.length) 0) ++ (bs ++ d.drop (p + bs.length)) := by
  simp [writeAt, h]

/-- Reading back the range that has just been written returns the bytes
written. -/
theorem read_writeAt (d : List Byte) (p : Nat) (bs : List Byte) :
    ((writeAt d p bs).drop p).take bs.length = bs := by
  by_cases h : bs = []
  · subst h
    simp
  · rw [writeAt_of_ne_nil d p bs h, List.drop_left' (length_take_pad d p)]
    exact List.take_left' rfl

/-- Two writes at adjacent positions amount to one write of the
concatenation. -/
theorem writeAt_writeAt_adjacent (d : List Byte) (p : Nat) (a b : List Byte) :
    writeAt (writeAt d p a) (p + a.length) b = writeAt d p (a ++ b) := by
  by_cases hb : b = []
  · subst hb
    simp [writeAt_nil]
  by_cases ha : a = []
  · subst ha
    simp [writeAt_nil]
  have hab : a ++ b ≠ [] := by simp [ha]
  have hlen : ((d.take p ++ List.replicate (p - d.length) (0 : Byte)) ++ a).length
      = p + a.length := by
    rw [List.length_append, length_take_pad]
  rw [writeAt_of_ne_nil _ _ b hb, writeAt_of_ne_nil d p a ha, writeAt_of_ne_nil d p _ hab]
  have e1 : ((d.take p ++ List.replicate (p - d.length) (0 : Byte)) ++
      (a ++ d.drop (p + a.length))) =
      ((d.take p ++ List.replicate (p - d.length) (0 : Byte)) ++ a) ++
        d.drop (p + a.length) := by
    simp [List.append_assoc]
  rw [e1, List.take_left' hlen]
  have e2 : (((d.take p ++ List.replicate (p - d.length) (0 : Byte)) ++ a) ++
      d.drop (p + a.length)).length ≥ p + a.length := by
    rw [List.length_append, hlen]
    omega
  have e3 : p + a.length - (((d.take p ++ List.replicate (p - d.length) (0 : Byte)) ++ a) ++
      d.drop (p + a.length)).length = 0 := by omega
  have e4 : List.drop (p + a.length + b.length)
      (((d.take p ++ List.replicate (p - d.length) (0 : Byte)) ++ a) ++
        d.drop (p + a.length)) = d.drop (p + (a ++ b).length) := by
    rw [← hlen, List.drop_append, List.drop_drop, hlen, List.length_append]
    congr 1
    omega
  rw [e3, e4]
  simp [List.append_assoc]

/-! ## The handle when all I/O succeeds -/

theorem fseek_quiet (f : FILE) (off : Int) (hf : f.faults = []) (ho : 0 ≤ off) :
    fseek f off = ({ f with pos := off.toNat }, 0) := by
  have : ¬ off < 0 := by omega
  simp [fseek, hf, this]

theorem fwrite_quiet (buf : List Byte) (n : Nat) (f : FILE) (hf : f.faults = [])
    (hn : n ≤ buf.length) :
    fwrite buf n f = ({ f with data := writeAt f.data f.pos (buf.take n), pos := f.pos + n }, n) := by
  by_cases h0 : n = 0
  · subst h0
    simp [fwrite, writeAt_nil]
  · simp [fwrite, h0, hf, List.length_take, hn]

theorem esp32_direct_write_quiet (p : esp32_file_t) (z : List Byte) (n o : Int)
    (hf : p.f.faults = []) (ho : 0 ≤ o) (hn : 0 ≤ n) (hz : n ≤ z.length) :
    esp32_direct_write p z n o =
      (SQLITE_OK,
        { p with f := { p.f with data := writeAt p.f.data o.toNat (z.take n.toNat),
                                 pos := o.toNat + n.toNat },
                 size := max p.size (o + n) }) := by
  have hz2 : n.toNat ≤ z.length := by omega
  have hcast : ((n.toNat : Nat) : Int) = n := by omega
  unfold esp32_direct_write
  rw [fseek_quiet p.f o hf ho]
  have hw := fwrite_quiet z n.toNat { p.f with pos := o.toNat } hf hz2
  simp only [] at hw ⊢
  rw [hw]
  by_cases hgt : o + n > p.size
  · have hm : max p.size (o + n) = o + n := by omega
    simp [hcast, hgt, hm]
  · have hm : max p.size (o + n) = p.size := by omega
    simp [hcast, hgt, hm]

theorem esp32_flush_buffer_quiet (B : Int) (h : esp32_file_t) (hok : BufferOk B h)
    (hq : Quiet h) :
    ∃ h1, esp32_flush_buffer h = (SQLITE_OK, h1) ∧ h1.f.data = (view h).1 ∧
      h1.size = (view h).2 ∧ h1.f.faults = [] ∧ h1.f.err = h.f.err ∧
      h1.aBuffer = h.aBuffer ∧ h1.iBufferOfst = h.iBufferOfst ∧
      (h.aBuffer ≠ none → h1.nBuffer = 0) ∧ (h.aBuffer = none → h1 = h) := by
  obtain ⟨h0, hB, hlen⟩ := hok
  obtain ⟨hf, hbo⟩ := hq
  cases hb : h.aBuffer with
  | none => exact ⟨h, by simp [esp32_flush_buffer, hb, view, hf]⟩
  | some buf =>
    have hl := hlen buf hb
    have hz : h.nBuffer ≤ buf.length := by omega
    refine ⟨_, by
      simp only [esp32_flush_buffer, hb]
      rw [esp32_direct_write_quiet h buf h.nBuffer h.iBufferOfst hf hbo h0 hz], ?_⟩
    simp [view, hb, hf]
theorem take_memcpy (buf z : List Byte) (m c : Nat) (hm : m ≤ buf.length) (hc : c ≤ z.length) :
    (memcpy buf m z c).take (m + c) = buf.take m ++ z.take c := by
  unfold memcpy
  apply List.take_left'
  simp [List.length_take]
  omega

theorem length_memcpy (buf z : List Byte) (m c : Nat) (hm : m + c ≤ buf.length)
    (hc : c ≤ z.length) : (memcpy buf m z c).length = buf.length := by
  unfold memcpy
  simp [List.length_take]
  omega

/-- One iteration of the loop of `esp32_write` when all I/O succeeds: it
stages `c ≥ 1` bytes, and the handle then stands for the previous content with
these `c` bytes written at offset `i`. -/
theorem esp32_write_step_quiet (B : Int) (h : esp32_file_t) (z : List Byte) (n i : Int)
    (hB : 1 ≤ B) (hok : BufferOk B h) (hq : Quiet h) (hbuf : h.aBuffer ≠ none)
    (hn : 0 < n) (hz : n ≤ z.length) (hi : 0 ≤ i) :
    ∃ c h1, esp32_write_step B h z n i = some (.copied c h1) ∧ 1 ≤ c ∧ c ≤ n ∧
      BufferOk B h1 ∧ Quiet h1 ∧ h1.aBuffer ≠ none ∧
      view h1 = (writeAt (view h).1 i.toNat (z.take c.toNat), max (view h).2 (i + c)) ∧
      h1.f.err = h.f.err := by
  obtain ⟨buf, hb⟩ : ∃ buf, h.aBuffer = some buf := by
    cases hx : h.aBuffer with
    | none => exact absurd hx hbuf
    | some buf => exact ⟨buf, rfl⟩
  have hok2 := hok
  obtain ⟨h0, hle, hlen⟩ := hok2
  have hl := hlen buf hb
  obtain ⟨hf, hbo⟩ := hq
  by_cases hfl : h.nBuffer = B ∨ h.iBufferOfst + h.nBuffer ≠ i
  · obtain ⟨h1, hfe, hd, hs, hfa, herr, hab, hbo1, hnb, -⟩ :=
      esp32_flush_buffer_quiet B h hok ⟨hf, hbo⟩
    have hnb0 : h1.nBuffer = 0 := hnb hbuf
    have hab1 : h1.aBuffer = some buf := by rw [hab, hb]
    obtain ⟨c, hc⟩ : ∃ c : Int, c = if B - 0 > n then n else B - 0 := ⟨_, rfl⟩
    have hc1 : 1 ≤ c := by rw [hc]; split <;> omega
    have hc2 : c ≤ n := by rw [hc]; split <;> omega
    have hc3 : c ≤ B := by rw [hc]; split <;> omega
    have hcz : c.toNat ≤ z.length := by omega
    have hcb : 0 + c.toNat ≤ buf.length := by omega
    refine ⟨c, { h1 with iBufferOfst := i - 0,
                         aBuffer := some (memcpy buf (0 : Int).toNat z c.toNat),
                         nBuffer := 0 + c }, ?_, hc1, hc2, ?_, ?_, ?_, ?_, ?_⟩
    · simp only [esp32_write_step, if_pos hfl, hfe, hnb0, hab1]
      rw [← hc]
      simp
      omega
    · refine ⟨by simp; omega, by simp; omega, ?_⟩
      intro b hb2
      simp at hb2
      subst hb2
      rw [length_memcpy buf z 0 c.toNat hcb hcz]
      exact hl
    · exact ⟨hfa, by simp; omega⟩
    · simp
    · have ht : (memcpy buf 0 z c.toNat).take c.toNat = z.take c.toNat := by
        have := take_memcpy buf z 0 c.toNat (by omega) hcz
        simpa using this
      simp [view, ht, hd, hs]
    · simpa using herr
  · have hnB : h.nBuffer ≠ B := fun e => hfl (Or.inl e)
    have hadj : h.iBufferOfst + h.nBuffer = i := by
      by_contra e
      exact hfl (Or.inr e)
    obtain ⟨c, hc⟩ : ∃ c : Int, c = if B - h.nBuffer > n then n else B - h.nBuffer := ⟨_, rfl⟩
    have hc1 : 1 ≤ c := by rw [hc]; split <;> omega
    have hc2 : c ≤ n := by rw [hc]; split <;> omega
    have hc3 : c ≤ B - h.nBuffer := by rw [hc]; split <;> omega
    have hcz : c.toNat ≤ z.length := by omega
    have hmb : h.nBuffer.toNat ≤ buf.length := by omega
    have hcb : h.nBuffer.toNat + c.toNat ≤ buf.length := by omega
    refine ⟨c, { h with iBufferOfst := i - h.nBuffer,
                        aBuffer := some (memcpy buf h.nBuffer.toNat z c.toNat),
                        nBuffer := h.nBuffer + c }, ?_, hc1, hc2, ?_, ?_, ?_, ?_, ?_⟩
    · simp only [esp32_write_step, if_neg hfl, hb]
      rw [← hc]
      simp [hadj]
      omega
    · refine ⟨by simp; omega, by simp; omega, ?_⟩
      intro b hb2
      simp at hb2
      subst hb2
      rw [length_memcpy buf z _ c.toNat hcb hcz]
      exact hl
    · exact ⟨hf, by simp; omega⟩
    · simp
    · have e1 : (h.nBuffer + c).toNat = h.nBuffer.toNat + c.toNat := by omega
      have e2 : i - h.nBuffer = h.iBufferOfst := by omega
      have e3 : i.toNat = h.iBufferOfst.toNat + (buf.take h.nBuffer.toNat).length := by
        rw [List.length_take]
        omega
      have e4 : max h.size (h.iBufferOfst + (h.nBuffer + c)) =
          max (max h.size (h.iBufferOfst + h.nBuffer)) (i + c) := by omega
      simp only [view, hb, e1, e2, e3, e4, take_memcpy buf z _ _ hmb hcz,
        writeAt_writeAt_adjacent]
    · simp
theorem esp32_write_loop_done (B : Int) (fuel : Nat) (h : esp32_file_t) (z : List Byte)
    (n i : Int) (hn : ¬ n > 0) : esp32_write_loop B fuel h z n i = some (SQLITE_OK, h) := by
  cases fuel <;> simp [esp32_write_loop, hn]

/-- The loop of `esp32_write` when all I/O succeeds: an iteration budget of
`n` suffices, the loop returns `SQLITE_OK`, and the handle then stands for the
previous content with the `n` bytes written at offset `i`. -/
theorem esp32_write_loop_quiet (B : Int) (hB : 1 ≤ B) (fuel : Nat) :
    ∀ (h : esp32_file_t) (z : List Byte) (n i : Int), BufferOk B h → Quiet h →
      h.aBuffer ≠ none → 0 ≤ n → n ≤ z.length → 0 ≤ i → n.toNat ≤ fuel →
      ∃ h2, esp32_write_loop B fuel h z n i = some (SQLITE_OK, h2) ∧ BufferOk B h2 ∧
        Quiet h2 ∧ h2.aBuffer ≠ none ∧
        view h2 = (writeAt (view h).1 i.toNat (z.take n.toNat),
                   if 0 < n then max (view h).2 (i + n) else (view h).2) ∧
        h2.f.err = h.f.err := by
  induction fuel with
  | zero =>
    intro h z n i hok hq hbuf hn hz hi hfuel
    have hn0 : n = 0 := by omega
    subst hn0
    exact ⟨h, esp32_write_loop_done B 0 h z 0 i (by omega), hok, hq, hbuf,
      by simp [writeAt_nil], rfl⟩
  | succ fuel ih =>
    intro h z n i hok hq hbuf hn hz hi hfuel
    by_cases hpos : n > 0
    · obtain ⟨c, h1, hstep, hc1, hc2, hok1, hq1, hbuf1, hv1, herr1⟩ :=
        esp32_write_step_quiet B h z n i hB hok hq hbuf hpos hz hi
      have hzd : n - c ≤ ((z.drop c.toNat).length : Int) := by
        rw [List.length_drop]
        omega
      obtain ⟨h2, hloop, hok2, hq2, hbuf2, hv2, herr2⟩ :=
        ih h1 (z.drop c.toNat) (n - c) (i + c) hok1 hq1 hbuf1 (by omega) hzd (by omega)
          (by omega)
      refine ⟨h2, ?_, hok2, hq2, hbuf2, ?_, by rw [herr2, herr1]⟩
      · rw [esp32_write_loop]
        simp only [if_pos hpos, hstep]
        exact hloop
      · rw [hv2, hv1]
        have e1 : (i + c).toNat = i.toNat + (z.take c.toNat).length := by
          rw [List.length_take]
          omega
        have e2 : n.toNat = c.toNat + (n - c).toNat := by omega
        have e3 : z.take n.toNat = z.take c.toNat ++ (z.drop c.toNat).take (n - c).toNat := by
          rw [e2, List.take_add]
        have e4 : (if 0 < n - c then max (max (view h).2 (i + c)) (i + c + (n - c))
            else max (view h).2 (i + c)) = max (view h).2 (i + n) := by
          split <;> omega
        simp only [e1, e3, e4, writeAt_writeAt_adjacent, if_pos hpos]
    · have hn0 : n = 0 := by omega
      subst hn0
      exact ⟨h, esp32_write_loop_done B _ h z 0 i (by omega), hok, hq, hbuf,
        by simp [writeAt_nil], rfl⟩

/-- The function `esp32_write` when all I/O succeeds, with or without a staging
buffer: it returns `SQLITE_OK` and the handle then stands for the previous
content with the bytes written at `iOfst`; the logical size grows to
`iOfst + iAmt`, except that a buffered handle ignores an empty write. -/
theorem esp32_write_quiet (B : Int) (hB : 1 ≤ B) (h : esp32_file_t) (z : List Byte)
    (n i : Int) (hok : BufferOk B h) (hq : Quiet h) (hn : 0 ≤ n) (hz : n ≤ z.length)
    (hi : 0 ≤ i) :
    ∃ h2, esp32_write B h z n i = some (SQLITE_OK, h2) ∧ BufferOk B h2 ∧ Quiet h2 ∧
      (h2.aBuffer = none ↔ h.aBuffer = none) ∧
      view h2 = (writeAt (view h).1 i.toNat (z.take n.toNat),
                 if 0 < n ∨ h.aBuffer = none then max (view h).2 (i + n) else (view h).2) ∧
      h2.f.err = h.f.err := by
  cases hb : h.aBuffer with
  | none =>
    refine ⟨_, by
      simp only [esp32_write, hb]
      rw [esp32_direct_write_quiet h z n i hq.1 hi hn hz], ?_, ?_, ?_, ?_, ?_⟩
    · exact ⟨hok.1, hok.2.1, by simp [hb]⟩
    · exact ⟨hq.1, hq.2⟩
    · simp [hb]
    · simp [view, hb]
    · simp
  | some buf =>
    have hbuf : h.aBuffer ≠ none := by simp [hb]
    obtain ⟨h2, hloop, hok2, hq2, hbuf2, hv2, herr2⟩ :=
      esp32_write_loop_quiet B hB n.toNat h z n i hok hq hbuf hn hz hi (le_refl _)
    refine ⟨h2, by simp only [esp32_write, hb]; exact hloop, hok2, hq2, ?_, ?_, herr2⟩
    · simp [hbuf2, hb]
    · rw [hv2]
      simp

theorem applyWrites_snd (v : List Byte × Int) (ws : List WriteReq) :
    (applyWrites v ws).2 = maxEnd v.2 ws := by
  induction ws generalizing v with
  | nil => rfl
  | cons w ws ih => simp [applyWrites, maxEnd, ih]

/-- A sequence of writes when all I/O succeeds: every call returns
`SQLITE_OK`, and the final handle stands for the initial content with the
requests applied in order.  Empty requests are admitted only on a handle
without staging buffer. -/
theorem runWrites_quiet (B : Int) (hB : 1 ≤ B) (ws : List WriteReq) :
    ∀ (h : esp32_file_t), BufferOk B h → Quiet h →
      (∀ w ∈ ws, w.Valid ∧ (1 ≤ w.iAmt ∨ h.aBuffer = none)) →
      ∃ h2, runWrites B h ws = some (List.replicate ws.length SQLITE_OK, h2) ∧
        BufferOk B h2 ∧ Quiet h2 ∧ (h2.aBuffer = none ↔ h.aBuffer = none) ∧
        view h2 = applyWrites (view h) ws ∧ h2.f.err = h.f.err := by
  induction ws with
  | nil =>
    intro h hok hq _
    exact ⟨h, rfl, hok, hq, Iff.rfl, rfl, rfl⟩
  | cons w ws ih =>
    intro h hok hq hall
    obtain ⟨⟨hn, hz, hi⟩, hpos⟩ := hall w (List.mem_cons_self w ws)
    obtain ⟨h1, hw, hok1, hq1, hb1, hv1, herr1⟩ :=
      esp32_write_quiet B hB h w.zBuf w.iAmt w.iOfst hok hq hn hz hi
    have hcond : (0 < w.iAmt ∨ h.aBuffer = none) := by
      rcases hpos with h1 | h2
      · exact Or.inl (by omega)
      · exact Or.inr h2
    have hall1 : ∀ x ∈ ws, x.Valid ∧ (1 ≤ x.iAmt ∨ h1.aBuffer = none) := by
      intro x hx
      obtain ⟨hxv, hxp⟩ := hall x (List.mem_cons_of_mem w hx)
      exact ⟨hxv, hxp.imp id (fun e => hb1.mpr e)⟩
    obtain ⟨h2, hr, hok2, hq2, hb2, hv2, herr2⟩ := ih h1 hok1 hq1 hall1
    refine ⟨h2, ?_, hok2, hq2, hb2.trans hb1, ?_, by rw [herr2, herr1]⟩
    · simp [runWrites, hw, hr, List.replicate_succ]
    · rw [hv2, hv1, if_pos hcond]
      rfl

theorem esp32_file_size_quiet (B : Int) (h : esp32_file_t) (hok : BufferOk B h)
    (hq : Quiet h) :
    (esp32_file_size h).1 = SQLITE_OK ∧ (esp32_file_size h).2.1 = some (view h).2 := by
  obtain ⟨h1, hfe, -, hs, -⟩ := esp32_flush_buffer_quiet B h hok hq
  simp [esp32_file_size, hfe, hs]

/-- An empty write on a handle with a staging buffer: the loop of `esp32_write`
is not entered, the call returns `SQLITE_OK` and the handle is left as it is,
whatever the offset. -/
theorem esp32_write_empty_buffered (B : Int) (h : esp32_file_t) (z : List Byte) (n i : Int)
    (hbuf : h.aBuffer ≠ none) (hn : n ≤ 0) :
    esp32_write B h z n i = some (SQLITE_OK, h) := by
  cases hb : h.aBuffer with
  | none => exact absurd hb hbuf
  | some buf =>
    simp only [esp32_write, hb]
    exact esp32_write_loop_done B _ h z n i (by omega)

/-- An empty write on a handle without staging buffer, when all I/O succeeds:
`esp32_direct_write` raises the logical size to the offset of the write. -/
theorem esp32_write_empty_direct (B : Int) (h : esp32_file_t) (z : List Byte) (i : Int)
    (hbuf : h.aBuffer = none) (hf : h.f.faults = []) (hi : 0 ≤ i) :
    ∃ h2, esp32_write B h z 0 i = some (SQLITE_OK, h2) ∧ h2.size = max h.size i := by
  refine ⟨_, by
    simp only [esp32_write, hbuf]
    rw [esp32_direct_write_quiet h z 0 i hf hi (le_refl _) (by omega)], ?_⟩
  simp

/-- The logical size after a sequence of writes, away from empty writes on a
buffered handle: take a handle (with or without staging buffer) on which all
I/O succeeds and whose size reported by `esp32_file_size` is `S`, and a
sequence of writes of `n_j` bytes at offsets `o_j ≥ 0`, with `n_j ≥ 1`, or
`n_j ≥ 0` when the handle has no staging buffer.  Then every write returns
`SQLITE_OK` and `esp32_file_size` afterwards returns `SQLITE_OK` and reports
`max (S, max_j (o_j + n_j))`, with and without staging buffer alike. -/
theorem logical_size_after_writes (B : Int) (hB : 1 ≤ B) (h : esp32_file_t)
    (ws : List WriteReq) (S : Int) (hok : BufferOk B h) (hq : Quiet h)
    (hS : (esp32_file_size h).2.1 = some S)
    (hall : ∀ w ∈ ws, w.Valid ∧ (1 ≤ w.iAmt ∨ h.aBuffer = none)) :
    ∃ h2, runWrites B h ws = some (List.replicate ws.length SQLITE_OK, h2) ∧
      (esp32_file_size h2).1 = SQLITE_OK ∧
      (esp32_file_size h2).2.1 = some (maxEnd S ws) := by
  obtain ⟨h2, hr, hok2, hq2, -, hv2, -⟩ := runWrites_quiet B hB ws h hok hq hall
  have hS2 : (view h).2 = S := by
    have := (esp32_file_size_quiet B h hok hq).2
    rw [hS] at this
    exact (Option.some.inj this).symm
  refine ⟨h2, hr, (esp32_file_size_quiet B h2 hok2 hq2).1, ?_⟩
  rw [(esp32_file_size_quiet B h2 hok2 hq2).2, hv2, applyWrites_snd, hS2]

theorem logical_size_after_writes_example :
    ∃ h2, runWrites 4 hBuf4 [⟨[1, 2, 3, 4, 5, 6], 6, 10⟩, ⟨[7], 1, 2⟩] =
        some (List.replicate 2 SQLITE_OK, h2) ∧
      (esp32_file_size h2).1 = SQLITE_OK ∧ (esp32_file_size h2).2.1 = some 16 :=
  logical_size_after_writes 4 (by decide) hBuf4 [⟨[1, 2, 3, 4, 5, 6], 6, 10⟩, ⟨[7], 1, 2⟩] 0
    (by decide) (by decide) (by decide) (by decide)

/-! ## Buffered and direct writes agree -/

/-- C9: start from any file content (a stream without injected faults) and any
logical size `S ≥ 0`, and take any sequence of writes of `n_j ≥ 1` bytes at
offsets `o_j ≥ 0`, contiguous, gapped or overlapping.  Running it on a fresh
handle with a staging buffer of `BUFFERSZ ≥ 1` bytes and then calling
`esp32_flush_buffer` succeeds and leaves exactly the file content and the
logical size that the same sequence leaves on a handle without staging buffer,
where every write goes through `esp32_direct_write`. -/
theorem C9_buffered_equals_direct (B : Int) (hB : 1 ≤ B) (f : FILE) (S : Int)
    (buf : List Byte) (ws : List WriteReq) (hf : f.faults = []) (hS : 0 ≤ S)
    (hlen : (buf.length : Int) = B) (hall : ∀ w ∈ ws, w.Valid ∧ 1 ≤ w.iAmt) :
    ∃ hb hd hb2,
      runWrites B { f := f, size := S, aBuffer := some buf, nBuffer := 0, iBufferOfst := 0 } ws
        = some (List.replicate ws.length SQLITE_OK, hb) ∧
      runWrites B { f := f, size := S, aBuffer := none, nBuffer := 0, iBufferOfst := 0 } ws
        = some (List.replicate ws.length SQLITE_OK, hd) ∧
      esp32_flush_buffer hb = (SQLITE_OK, hb2) ∧
      hb2.f.data = hd.f.data ∧ hb2.size = hd.size := by
  obtain ⟨hb, hrb, hokb, hqb, -, hvb, -⟩ :=
    runWrites_quiet B hB ws
      { f := f, size := S, aBuffer := some buf, nBuffer := 0, iBufferOfst := 0 }
      ⟨le_refl _, by simp; omega, by simp [hlen]⟩ ⟨hf, le_refl _⟩
      (fun w hw => ⟨(hall w hw).1, Or.inl (hall w hw).2⟩)
  obtain ⟨hd, hrd, -, -, hnd, hvd, -⟩ :=
    runWrites_quiet B hB ws
      { f := f, size := S, aBuffer := none, nBuffer := 0, iBufferOfst := 0 }
      ⟨le_refl _, by simp; omega, by simp⟩ ⟨hf, le_refl _⟩
      (fun w hw => ⟨(hall w hw).1, Or.inl (hall w hw).2⟩)
  obtain ⟨hb2, hfl, hdat, hsz, -⟩ := esp32_flush_buffer_quiet B hb hokb hqb
  have hnone : hd.aBuffer = none := hnd.mpr rfl
  have hv0 : view { f := f, size := S, aBuffer := some buf, nBuffer := 0, iBufferOfst := 0 }
      = view { f := f, size := S, aBuffer := none, nBuffer := 0, iBufferOfst := 0 } := by
    simp [view, writeAt_nil, hS]
  have hvd2 : view hd = (hd.f.data, hd.size) := by simp [view, hnone]
  refine ⟨hb, hd, hb2, hrb, hrd, hfl, ?_, ?_⟩
  · rw [hdat, hvb, hv0, ← hvd, hvd2]
  · rw [hsz, hvb, hv0, ← hvd, hvd2]

theorem C9_buffered_equals_direct_witness :
    ∃ hb hd hb2,
      runWrites 4 { f := fEmpty, size := 0, aBuffer := some [0, 0, 0, 0], nBuffer := 0,
                    iBufferOfst := 0 }
          [⟨[1, 2, 3, 4, 5, 6], 6, 1⟩, ⟨[7, 8], 2, 3⟩, ⟨[9], 1, 12⟩]
        = some (List.replicate 3 SQLITE_OK, hb) ∧
      runWrites 4 { f := fEmpty, size := 0, aBuffer := none, nBuffer := 0, iBufferOfst := 0 }
          [⟨[1, 2, 3, 4, 5, 6], 6, 1⟩, ⟨[7, 8], 2, 3⟩, ⟨[9], 1, 12⟩]
        = some (List.replicate 3 SQLITE_OK, hd) ∧
      esp32_flush_buffer hb = (SQLITE_OK, hb2) ∧
      hb2.f.data = hd.f.data ∧ hb2.size = hd.size :=
  C9_buffered_equals_direct 4 (by decide) fEmpty 0 [0, 0, 0, 0]
    [⟨[1, 2, 3, 4, 5, 6], 6, 1⟩, ⟨[7, 8], 2, 3⟩, ⟨[9], 1, 12⟩] rfl (by decide) (by decide)
    (by decide)

/-! ## Reading back contiguous writes -/

theorem fread_quiet (n : Nat) (f : FILE) (hf : f.faults = []) :
    (fread n f).2 = (f.data.drop f.pos).take n ∧ (fread n f).1.faults = [] ∧
      (fread n f).1.err = f.err := by
  by_cases h0 : n = 0
  · subst h0
    simp [fread, hf]
  · simp [fread, h0, hf]

/-- The function `esp32_read` when all I/O succeeds and the content the handle
stands for reaches up to `iOfst + iAmt`: it returns `SQLITE_OK` and delivers
these `iAmt` bytes. -/
theorem esp32_read_quiet (B : Int) (h : esp32_file_t) (n o : Int) (hok : BufferOk B h)
    (hq : Quiet h) (ho : 0 ≤ o)
    (hl : ((((view h).1.drop o.toNat).take n.toNat).length : Int) = n) :
    ∃ h3, esp32_read h n o = (SQLITE_OK, ((view h).1.drop o.toNat).take n.toNat, h3) := by
  obtain ⟨h1, hfe, hd, -, hfa, -⟩ := esp32_flush_buffer_quiet B h hok hq
  have hs := fseek_quiet h1.f o hfa ho
  have hr := fread_quiet n.toNat { h1.f with pos := o.toNat } hfa
  simp only [] at hr
  obtain ⟨hr1, -, -⟩ := hr
  rw [← hd] at hl ⊢
  refine ⟨{ h1 with f := (fread n.toNat { h1.f with pos := o.toNat }).1 }, ?_⟩
  unfold esp32_read
  simp only [hfe, hs, ne_eq, not_true_eq_false, if_false, lt_self_iff_false, hr1, if_pos hl]

theorem applyWrites_contiguous (ws : List WriteReq) :
    ∀ (v : List Byte × Int) (o : Int), 0 ≤ o → ContiguousFrom o ws →
      (∀ w ∈ ws, 1 ≤ w.iAmt ∧ (w.zBuf.length : Int) = w.iAmt) →
      (applyWrites v ws).1 = writeAt v.1 o.toNat (ws.map WriteReq.zBuf).flatten := by
  induction ws with
  | nil =>
    intro v o _ _ _
    simp [applyWrites, writeAt_nil]
  | cons w ws ih =>
    intro v o ho hc hall
    obtain ⟨hw1, hw2⟩ := hall w (List.mem_cons_self w ws)
    obtain ⟨hwo, hrest⟩ := hc
    have hall2 : ∀ x ∈ ws, 1 ≤ x.iAmt ∧ (x.zBuf.length : Int) = x.iAmt :=
      fun x hx => hall x (List.mem_cons_of_mem w hx)
    have e1 : w.zBuf.take w.iAmt.toNat = w.zBuf := by
      apply List.take_of_length_le
      omega
    have e2 : (o + w.iAmt).toNat = o.toNat + w.zBuf.length := by omega
    rw [applyWrites, ih _ (o + w.iAmt) (by omega) hrest hall2]
    simp only [e1, hwo, e2, writeAt_writeAt_adjacent, List.map_cons, List.flatten_cons]

theorem sum_iAmt_eq_length (ws : List WriteReq)
    (hall : ∀ w ∈ ws, 1 ≤ w.iAmt ∧ (w.zBuf.length : Int) = w.iAmt) :
    (ws.map WriteReq.iAmt).sum = (((ws.map WriteReq.zBuf).flatten.length : Nat) : Int) := by
  induction ws with
  | nil => simp
  | cons w ws ih =>
    have h1 := (hall w (List.mem_cons_self w ws)).2
    have h2 := ih (fun x hx => hall x (List.mem_cons_of_mem w hx))
    simp only [List.map_cons, List.sum_cons, List.flatten_cons, List.length_append, h2]
    push_cast
    omega

/-- C1: take a handle with or without staging buffer, of any capacity
`BUFFERSZ ≥ 1`, on which all I/O succeeds, and a sequence of writes
`write(b_j, n_j, o_j)` with `n_j ≥ 1` bytes each, `o_1 = o ≥ 0` and
`o_{j+1} = o_j + n_j`.  Then every write returns `SQLITE_OK`, and a following
`esp32_read` of `n_1 + ... + n_k` bytes at offset `o` returns `SQLITE_OK` and
yields exactly `b_1 ++ ... ++ b_k`, whatever the sizes `n_j` are relative to
the capacity. -/
theorem C1_round_trip (B : Int) (hB : 1 ≤ B) (h : esp32_file_t) (ws : List WriteReq)
    (o : Int) (hok : BufferOk B h) (hq : Quiet h) (ho : 0 ≤ o)
    (hc : ContiguousFrom o ws)
    (hall : ∀ w ∈ ws, 1 ≤ w.iAmt ∧ (w.zBuf.length : Int) = w.iAmt) :
    ∃ h2 h3, runWrites B h ws = some (List.replicate ws.length SQLITE_OK, h2) ∧
      esp32_read h2 (ws.map WriteReq.iAmt).sum o =
        (SQLITE_OK, (ws.map WriteReq.zBuf).flatten, h3) := by
  have hoffs : ∀ (ws : List WriteReq) (o : Int), 0 ≤ o → ContiguousFrom o ws →
      (∀ w ∈ ws, 1 ≤ w.iAmt ∧ (w.zBuf.length : Int) = w.iAmt) → ∀ w ∈ ws, 0 ≤ w.iOfst := by
    intro ws
    induction ws with
    | nil => intro o _ _ _ w hw; simp at hw
    | cons x xs ih =>
      intro o ho hc hall w hw
      obtain ⟨hxo, hrest⟩ := hc
      have hx := hall x (List.mem_cons_self x xs)
      rcases List.mem_cons.mp hw with rfl | hmem
      · omega
      · exact ih (o + x.iAmt) (by omega) hrest
          (fun y hy => hall y (List.mem_cons_of_mem x hy)) w hmem
  have hvalid : ∀ w ∈ ws, w.Valid ∧ (1 ≤ w.iAmt ∨ h.aBuffer = none) := by
    intro w hw
    obtain ⟨h1, h2⟩ := hall w hw
    exact ⟨⟨by omega, by omega, hoffs ws o ho hc hall w hw⟩, Or.inl h1⟩
  obtain ⟨h2, hr, hok2, hq2, -, hv2, -⟩ := runWrites_quiet B hB ws h hok hq hvalid
  have hdata : (view h2).1 = writeAt (view h).1 o.toNat (ws.map WriteReq.zBuf).flatten := by
    rw [hv2]
    exact applyWrites_contiguous ws (view h) o ho hc hall
  have hsum := sum_iAmt_eq_length ws hall
  have hback : ((view h2).1.drop o.toNat).take (ws.map WriteReq.iAmt).sum.toNat
      = (ws.map WriteReq.zBuf).flatten := by
    rw [hdata, hsum, Int.toNat_natCast]
    exact read_writeAt _ _ _
  obtain ⟨h3, hread⟩ := esp32_read_quiet B h2 (ws.map WriteReq.iAmt).sum o hok2 hq2 ho
    (by rw [hback, hsum])
  rw [hback] at hread
  exact ⟨h2, h3, hr, hread⟩

theorem C1_round_trip_witness :
    ∃ h2 h3, runWrites 4 hBuf4 [⟨[1, 2, 3], 3, 2⟩, ⟨[4, 5, 6, 7, 8, 9], 6, 5⟩, ⟨[10], 1, 11⟩]
        = some (List.replicate 3 SQLITE_OK, h2) ∧
      esp32_read h2 10 2 = (SQLITE_OK, [1, 2, 3, 4, 5, 6, 7, 8, 9, 10], h3) :=
  C1_round_trip 4 (by decide) hBuf4
    [⟨[1, 2, 3], 3, 2⟩, ⟨[4, 5, 6, 7, 8, 9], 6, 5⟩, ⟨[10], 1, 11⟩] 2
    (by decide) (by decide) (by decide) (by decide) (by decide)

/-! ## A non-contiguous write -/

/-- C5, as stated, fails: with a capacity of 2 bytes and the buffer holding the
run `1, 2` for `[0, 2)`, the write of the 3 bytes `7, 8, 9` at offset `1 ≠ 2`
returns `SQLITE_OK`, but afterwards storage holds `1, 7` at `[0, 2)`, not the
old run, and the staged bytes start at offset 3, not at offset 1. -/
theorem C5_counterexample :
    BufferOk 2 hFull2 ∧ Quiet hFull2 ∧ hFull2.aBuffer = some [1, 2] ∧ 1 ≤ hFull2.nBuffer ∧
    (1 : Int) ≠ hFull2.iBufferOfst + hFull2.nBuffer ∧
    ∃ h2, esp32_write 2 hFull2 [7, 8, 9] 3 1 = some (SQLITE_OK, h2) ∧
      (h2.f.data.drop hFull2.iBufferOfst.toNat).take hFull2.nBuffer.toNat ≠ [1, 2] ∧
      h2.iBufferOfst ≠ 1 ∧ h2.aBuffer.map (fun b => b.take h2.nBuffer.toNat) = some [9] :=
  ⟨by decide, by decide, by decide, by decide, by decide,
    { f := { data := [1, 7, 8], pos := 3, err := false, faults := [] }, size := 3,
      aBuffer := some [9, 8], nBuffer := 1, iBufferOfst := 3 },
    by decide, by decide, by decide, by decide⟩

/-- A write of `n ≤ BUFFERSZ` bytes that is not adjacent to the `m ≥ 1` staged
bytes, when all I/O succeeds: the stream and the logical size afterwards are
those left by `esp32_flush_buffer`, and the buffer holds exactly the new
bytes, starting at offset `i`. -/
theorem esp32_write_noncontiguous (B : Int) (h : esp32_file_t) (buf z : List Byte)
    (n i : Int) (hok : BufferOk B h) (hq : Quiet h) (hbuf : h.aBuffer = some buf)
    (hm : 1 ≤ h.nBuffer) (hn1 : 1 ≤ n) (hnB : n ≤ B) (hz : n ≤ z.length)
    (hi : i ≠ h.iBufferOfst + h.nBuffer) :
    ∃ hf h2, esp32_flush_buffer h = (SQLITE_OK, hf) ∧
      esp32_write B h z n i = some (SQLITE_OK, h2) ∧
      h2.f = hf.f ∧ h2.size = hf.size ∧
      hf.f.data = writeAt h.f.data h.iBufferOfst.toNat (buf.take h.nBuffer.toNat) ∧
      (h2.f.data.drop h.iBufferOfst.toNat).take h.nBuffer.toNat
        = buf.take h.nBuffer.toNat ∧
      h2.iBufferOfst = i ∧ h2.nBuffer = n ∧
      h2.aBuffer.map (fun b => b.take n.toNat) = some (z.take n.toNat) := by
  obtain ⟨hf, hfe, hd, hs, hfa, herr, hab, hbo1, hnb, -⟩ :=
    esp32_flush_buffer_quiet B h hok hq
  have hne : h.aBuffer ≠ none := by simp [hbuf]
  have hnb0 : hf.nBuffer = 0 := hnb hne
  have hab1 : hf.aBuffer = some buf := by rw [hab, hbuf]
  have hl : (buf.length : Int) = B := hok.2.2 buf hbuf
  have hfl : h.nBuffer = B ∨ h.iBufferOfst + h.nBuffer ≠ i := Or.inr (fun e => hi e.symm)
  have hc : (if B - 0 > n then n else B - 0) = n := by split <;> omega
  have hdat : hf.f.data = writeAt h.f.data h.iBufferOfst.toNat (buf.take h.nBuffer.toNat) := by
    rw [hd]
    simp [view, hbuf]
  have hstep : esp32_write_step B h z n i = some (.copied n
      { hf with iBufferOfst := i - 0, aBuffer := some (memcpy buf (0 : Int).toNat z n.toNat),
                nBuffer := 0 + n }) := by
    simp only [esp32_write_step, if_pos hfl, hfe, hnb0, hab1]
    rw [hc]
    simp
    omega
  obtain ⟨k, hk⟩ : ∃ k, n.toNat = k + 1 := ⟨n.toNat - 1, by omega⟩
  refine ⟨hf, { hf with iBufferOfst := i - 0,
                        aBuffer := some (memcpy buf (0 : Int).toNat z n.toNat),
                        nBuffer := 0 + n }, hfe, ?_, rfl, rfl, hdat, ?_, by simp, by simp, ?_⟩
  · rw [show esp32_write B h z n i = esp32_write_loop B (k + 1) h z n i by
      simp only [esp32_write, hbuf, hk]]
    rw [esp32_write_loop]
    simp only [if_pos (show n > 0 by omega), hstep]
    exact esp32_write_loop_done B k _ _ (n - n) _ (by omega)
  · show (hf.f.data.drop h.iBufferOfst.toNat).take h.nBuffer.toNat = _
    rw [hdat]
    have hlen : (buf.take h.nBuffer.toNat).length = h.nBuffer.toNat := by
      rw [List.length_take]
      have := hok.2.1
      omega
    have := read_writeAt h.f.data h.iBufferOfst.toNat (buf.take h.nBuffer.toNat)
    rw [hlen] at this
    exact this
  · have := take_memcpy buf z 0 n.toNat (by omega) (by omega)
    simpa using this

theorem length_writeAt_ge (d : List Byte) (p : Nat) (bs : List Byte) (h : bs ≠ []) :
    p + bs.length ≤ (writeAt d p bs).length := by
  rw [writeAt_of_ne_nil d p bs h, List.length_append, length_take_pad, List.length_append]
  omega

/-- A write further up in the file leaves what is read below it unchanged. -/
theorem read_writeAt_below (d : List Byte) (p : Nat) (bs : List Byte) (q m : Nat)
    (h1 : q + m ≤ p) (h2 : q + m ≤ d.length) :
    ((writeAt d p bs).drop q).take m = (d.drop q).take m := by
  by_cases hb : bs = []
  · subst hb
    rw [writeAt_nil]
  · rw [writeAt_of_ne_nil d p bs hb, List.append_assoc]
    have hq : q ≤ (d.take p).length := by
      rw [List.length_take]
      omega
    rw [List.drop_append_of_le_length hq]
    have hm : m ≤ ((d.take p).drop q).length := by
      rw [List.length_drop, List.length_take]
      omega
    rw [List.take_append_of_le_length hm, List.drop_take, List.take_take]
    congr 1
    omega

/-- The scenario of the specification, for every capacity: a write, then a
write starting at or behind the end of the first one, then reading the first
range returns the bytes of the first write. -/
theorem write_write_read_first (B : Int) (hB : 1 ≤ B) (h : esp32_file_t) (a b : List Byte)
    (o1 o2 : Int) (hok : BufferOk B h) (hq : Quiet h) (ha : a ≠ []) (hb : b ≠ [])
    (ho1 : 0 ≤ o1) (ho2 : o1 + a.length ≤ o2) :
    ∃ h2 h3, runWrites B h [⟨a, a.length, o1⟩, ⟨b, b.length, o2⟩]
        = some ([SQLITE_OK, SQLITE_OK], h2) ∧
      esp32_read h2 a.length o1 = (SQLITE_OK, a, h3) := by
  have hla : 1 ≤ a.length := by
    cases a with
    | nil => exact absurd rfl ha
    | cons x xs => simp
  have hlb : 1 ≤ b.length := by
    cases b with
    | nil => exact absurd rfl hb
    | cons x xs => simp
  have hvalid : ∀ w ∈ [(⟨a, a.length, o1⟩ : WriteReq), ⟨b, b.length, o2⟩],
      w.Valid ∧ (1 ≤ w.iAmt ∨ h.aBuffer = none) := by
    intro w hw
    simp only [List.mem_cons, List.mem_singleton, List.not_mem_nil, or_false] at hw
    rcases hw with rfl | rfl
    · exact ⟨⟨by simp, by simp, ho1⟩, Or.inl (by simp; omega)⟩
    · exact ⟨⟨by simp, by simp, by simp; omega⟩, Or.inl (by simp; omega)⟩
  obtain ⟨h2, hr, hok2, hq2, -, hv2, -⟩ := runWrites_quiet B hB _ h hok hq hvalid
  have hdata : (view h2).1 =
      writeAt (writeAt (view h).1 o1.toNat a) o2.toNat b := by
    rw [hv2]
    simp [applyWrites]
  have hback : ((view h2).1.drop o1.toNat).take ((a.length : Int)).toNat = a := by
    rw [hdata, Int.toNat_natCast,
      read_writeAt_below _ o2.toNat b o1.toNat a.length (by omega)
        (length_writeAt_ge _ _ _ ha)]
    exact read_writeAt _ _ _
  obtain ⟨h3, hread⟩ := esp32_read_quiet B h2 a.length o1 hok2 hq2 ho1 (by rw [hback])
  rw [hback] at hread
  exact ⟨h2, h3, by simpa using hr, hread⟩

/-- The loop of `esp32_write` started on a buffer that the new bytes extend
(`iBufferOfst + nBuffer = i`), when all I/O succeeds: of the staged bytes
followed by the `n` new bytes, the first `t` have been written through to the
stream at `iBufferOfst`, and the buffer holds the remaining ones, for the
offsets from `iBufferOfst + t` on.  Nothing is written through when everything
fits the buffer. -/
theorem esp32_write_loop_tail (B : Int) (hB : 1 ≤ B) (fuel : Nat) :
    ∀ (h : esp32_file_t) (buf z : List Byte) (n i : Int), BufferOk B h → Quiet h →
      h.aBuffer = some buf → h.iBufferOfst + h.nBuffer = i → 0 ≤ n → n ≤ z.length →
      n.toNat ≤ fuel →
      ∃ (h2 : esp32_file_t) (buf2 : List Byte) (t : Nat),
        esp32_write_loop B fuel h z n i = some (SQLITE_OK, h2) ∧
        (t : Int) ≤ h.nBuffer + n ∧ (h.nBuffer + n ≤ B → t = 0) ∧
        (0 < n → (t : Int) < h.nBuffer + n) ∧
        h2.f.data = writeAt h.f.data h.iBufferOfst.toNat
          ((buf.take h.nBuffer.toNat ++ z.take n.toNat).take t) ∧
        h2.iBufferOfst = h.iBufferOfst + t ∧ h2.nBuffer = h.nBuffer + n - t ∧
        h2.aBuffer = some buf2 ∧
        buf2.take (h.nBuffer + n - t).toNat
          = (buf.take h.nBuffer.toNat ++ z.take n.toNat).drop t := by
  induction fuel with
  | zero =>
    intro h buf z n i hok hq hb hadj hn hz hfuel
    have hn0 : n = 0 := by omega
    subst hn0
    exact ⟨h, buf, 0, esp32_write_loop_done B 0 h z 0 i (by omega), by simpa using hok.1,
      fun _ => rfl, fun hx => absurd hx (by omega), by simp [writeAt_nil], by simp, by simp,
      hb, by simp⟩
  | succ fuel ih =>
    intro h buf z n i hok hq hb hadj hn hz hfuel
    by_cases hpos : n > 0
    swap
    · have hn0 : n = 0 := by omega
      subst hn0
      exact ⟨h, buf, 0, esp32_write_loop_done B _ h z 0 i (by omega), by simpa using hok.1,
        fun _ => rfl, fun hx => absurd hx (by omega), by simp [writeAt_nil], by simp, by simp,
      hb, by simp⟩
    have hok2 := hok
    obtain ⟨h0, hle, hlen⟩ := hok2
    have hl := hlen buf hb
    have hbuf : h.aBuffer ≠ none := by simp [hb]
    have hbo : 0 ≤ h.iBufferOfst := hq.2
    have hlt : (buf.take h.nBuffer.toNat).length = h.nBuffer.toNat := by
      rw [List.length_take]
      omega
    by_cases hfull : h.nBuffer = B
    · -- the buffer is full: it is written through, then refilled from `z`
      have hfl : h.nBuffer = B ∨ h.iBufferOfst + h.nBuffer ≠ i := Or.inl hfull
      obtain ⟨hf, hfe, hd, -, hfa, -, hab, hbo1, hnb, -⟩ :=
        esp32_flush_buffer_quiet B h hok hq
      have hnb0 : hf.nBuffer = 0 := hnb hbuf
      have hab1 : hf.aBuffer = some buf := by rw [hab, hb]
      have hdat : hf.f.data
          = writeAt h.f.data h.iBufferOfst.toNat (buf.take h.nBuffer.toNat) := by
        rw [hd]
        simp [view, hb]
      obtain ⟨c, hc⟩ : ∃ c : Int, c = if B - 0 > n then n else B - 0 := ⟨_, rfl⟩
      have hc1 : 1 ≤ c := by rw [hc]; split <;> omega
      have hc2 : c ≤ n := by rw [hc]; split <;> omega
      have hc3 : c ≤ B := by rw [hc]; split <;> omega
      have hcz : c.toNat ≤ z.length := by omega
      have hcb : 0 + c.toNat ≤ buf.length := by omega
      have hstep : esp32_write_step B h z n i = some (.copied c
          { hf with iBufferOfst := i - 0, aBuffer := some (memcpy buf (0 : Int).toNat z c.toNat), nBuffer := 0 + c }) := by
        simp only [esp32_write_step, if_pos hfl, hfe, hnb0, hab1]
        rw [← hc]
        simp
        omega
      have hok1 : BufferOk B { hf with iBufferOfst := i - 0, aBuffer := some (memcpy buf (0 : Int).toNat z c.toNat), nBuffer := 0 + c } := by
        refine ⟨by simp; omega, by simp; omega, ?_⟩
        intro b hb2
        simp at hb2
        subst hb2
        rw [length_memcpy buf z 0 c.toNat hcb hcz]
        exact hl
      have hzd : n - c ≤ ((z.drop c.toNat).length : Int) := by
        rw [List.length_drop]
        omega
      obtain ⟨h2, buf2, t, hloop, ht1, ht0, htn, hdata2, hbo2, hnb2, hab2, hbuf2⟩ :=
        ih _ (memcpy buf (0 : Int).toNat z c.toNat) (z.drop c.toNat) (n - c) (i + c)
          hok1 ⟨hfa, by simp; omega⟩ rfl (by simp) (by omega) hzd (by omega)
      simp only [] at ht1 ht0 htn hdata2 hbo2 hnb2 hbuf2
      have htlt : (t : Int) < n := by
        by_cases hrest : 0 < n - c
        · have := htn hrest
          omega
        · have := ht0 (by omega)
          omega
      have hL : (memcpy buf (0 : Int).toNat z c.toNat).take (0 + c).toNat
          ++ (z.drop c.toNat).take (n - c).toNat = z.take n.toNat := by
        have e1 : (0 + c).toNat = 0 + c.toNat := by omega
        have e2 : n.toNat = c.toNat + (n - c).toNat := by omega
        rw [e1, show (0 : Int).toNat = 0 from rfl, take_memcpy buf z 0 c.toNat (by omega) hcz,
          e2, List.take_add]
        simp
      rw [hL] at hdata2 hbuf2
      have hta : (buf.take h.nBuffer.toNat ++ z.take n.toNat).take (h.nBuffer.toNat + t)
          = buf.take h.nBuffer.toNat ++ (z.take n.toNat).take t := by
        have := @List.take_append _ (buf.take h.nBuffer.toNat) (z.take n.toNat) t
        rwa [hlt] at this
      have hda : (buf.take h.nBuffer.toNat ++ z.take n.toNat).drop (h.nBuffer.toNat + t)
          = (z.take n.toNat).drop t := by
        have := @List.drop_append _ (buf.take h.nBuffer.toNat) (z.take n.toNat) t
        rwa [hlt] at this
      refine ⟨h2, buf2, h.nBuffer.toNat + t, ?_, ?_, ?_, ?_, ?_, ?_, ?_, hab2, ?_⟩
      · rw [esp32_write_loop]
        simp only [if_pos hpos, hstep]
        exact hloop
      · push_cast
        omega
      · intro hfit
        omega
      · intro _
        push_cast
        omega
      · have e3 : (i - 0).toNat = h.iBufferOfst.toNat + (buf.take h.nBuffer.toNat).length := by
          rw [hlt]
          omega
        rw [hdata2, hdat, e3, writeAt_writeAt_adjacent, hta]
      · rw [hbo2]
        push_cast
        omega
      · rw [hnb2]
        push_cast
        omega
      · have e4 : (h.nBuffer + n - ((h.nBuffer.toNat + t : Nat) : Int)).toNat
            = (0 + c + (n - c) - (t : Int)).toNat := by
          push_cast
          omega
        rw [e4, hbuf2, hda]
    · -- room is left: the new bytes are staged behind the old ones
      have hfl : ¬ (h.nBuffer = B ∨ h.iBufferOfst + h.nBuffer ≠ i) := by
        intro hx
        rcases hx with hx | hx
        · exact hfull hx
        · exact hx hadj
      obtain ⟨c, hc⟩ : ∃ c : Int, c = if B - h.nBuffer > n then n else B - h.nBuffer :=
        ⟨_, rfl⟩
      have hc1 : 1 ≤ c := by rw [hc]; split <;> omega
      have hc2 : c ≤ n := by rw [hc]; split <;> omega
      have hc3 : c ≤ B - h.nBuffer := by rw [hc]; split <;> omega
      have hc4 : h.nBuffer + n ≤ B → c = n := by
        intro hfit
        rw [hc]
        split <;> omega
      have hcz : c.toNat ≤ z.length := by omega
      have hmb : h.nBuffer.toNat ≤ buf.length := by omega
      have hcb : h.nBuffer.toNat + c.toNat ≤ buf.length := by omega
      have hstep : esp32_write_step B h z n i = some (.copied c
          { h with iBufferOfst := i - h.nBuffer, aBuffer := some (memcpy buf h.nBuffer.toNat z c.toNat), nBuffer := h.nBuffer + c }) := by
        simp only [esp32_write_step, if_neg hfl, hb]
        rw [← hc]
        simp [hadj]
        omega
      have hok1 : BufferOk B { h with iBufferOfst := i - h.nBuffer, aBuffer := some (memcpy buf h.nBuffer.toNat z c.toNat), nBuffer := h.nBuffer + c } := by
        refine ⟨by simp; omega, by simp; omega, ?_⟩
        intro b hb2
        simp at hb2
        subst hb2
        rw [length_memcpy buf z _ c.toNat hcb hcz]
        exact hl
      have hzd : n - c ≤ ((z.drop c.toNat).length : Int) := by
        rw [List.length_drop]
        omega
      obtain ⟨h2, buf2, t, hloop, ht1, ht0, htn, hdata2, hbo2, hnb2, hab2, hbuf2⟩ :=
        ih _ (memcpy buf h.nBuffer.toNat z c.toNat) (z.drop c.toNat) (n - c) (i + c)
          hok1 ⟨hq.1, by simp; omega⟩ rfl (by simp; omega) (by omega) hzd (by omega)
      simp only [] at ht1 ht0 htn hdata2 hbo2 hnb2 hbuf2
      have htlt : (t : Int) < h.nBuffer + n := by
        by_cases hrest : 0 < n - c
        · have := htn hrest
          omega
        · have := ht0 (by omega)
          omega
      have hL : (memcpy buf h.nBuffer.toNat z c.toNat).take (h.nBuffer + c).toNat
          ++ (z.drop c.toNat).take (n - c).toNat
          = buf.take h.nBuffer.toNat ++ z.take n.toNat := by
        have e1 : (h.nBuffer + c).toNat = h.nBuffer.toNat + c.toNat := by omega
        have e2 : n.toNat = c.toNat + (n - c).toNat := by omega
        rw [e1, take_memcpy buf z _ c.toNat hmb hcz, e2, List.take_add, List.append_assoc]
      have e5 : i - h.nBuffer = h.iBufferOfst := by omega
      rw [hL, e5] at hdata2
      rw [hL] at hbuf2
      rw [e5] at hbo2
      refine ⟨h2, buf2, t, ?_, by omega, fun hfit => ht0 (by omega), fun _ => htlt, hdata2, hbo2,
        by rw [hnb2]; omega, hab2, ?_⟩
      · rw [esp32_write_loop]
        simp only [if_pos hpos, hstep]
        exact hloop
      · have e6 : (h.nBuffer + n - (t : Int)).toNat = (h.nBuffer + c + (n - c) - (t : Int)).toNat := by
          omega
        rw [e6, hbuf2]
/-- A write that lies entirely below position `q` leaves the file from `q` on
unchanged. -/
theorem drop_writeAt_above (d : List Byte) (p : Nat) (bs : List Byte) (q : Nat)
    (h : p + bs.length ≤ q) : (writeAt d p bs).drop q = d.drop q := by
  by_cases hb : bs = []
  · subst hb
    rw [writeAt_nil]
  · have hlen : ((d.take p ++ List.replicate (p - d.length) (0 : Byte)) ++ bs).length
        = p + bs.length := by
      rw [List.length_append, length_take_pad]
    obtain ⟨k, hk⟩ : ∃ k, q = p + bs.length + k := ⟨q - (p + bs.length), by omega⟩
    rw [writeAt_of_ne_nil d p bs hb, ← List.append_assoc, hk, ← hlen, List.drop_append,
      List.drop_drop, hlen]

/-- A write of `n ≥ 1` bytes at an offset `i ≥ 0` that is not adjacent to the
staged bytes, when all I/O succeeds: the staged bytes are flushed first; of
the new bytes, the first `t < n` are written through at `i` and the buffer
holds the remaining ones, for the offsets from `i + t` on; `t = 0` when the
write fits the buffer. -/
theorem esp32_write_noncontiguous_any (B : Int) (hB : 1 ≤ B) (h : esp32_file_t)
    (buf z : List Byte) (n i : Int) (hok : BufferOk B h) (hq : Quiet h)
    (hbuf : h.aBuffer = some buf) (hn1 : 1 ≤ n) (hz : n ≤ z.length) (hi0 : 0 ≤ i)
    (hi : i ≠ h.iBufferOfst + h.nBuffer) :
    ∃ (hf h2 : esp32_file_t) (buf2 : List Byte) (t : Nat),
      esp32_flush_buffer h = (SQLITE_OK, hf) ∧
      hf.f.data = writeAt h.f.data h.iBufferOfst.toNat (buf.take h.nBuffer.toNat) ∧
      esp32_write B h z n i = some (SQLITE_OK, h2) ∧
      (t : Int) < n ∧ (n ≤ B → t = 0) ∧
      h2.f.data = writeAt hf.f.data i.toNat (z.take t) ∧
      h2.iBufferOfst = i + t ∧ h2.nBuffer = n - t ∧ h2.aBuffer = some buf2 ∧
      buf2.take (n - t).toNat = (z.take n.toNat).drop t := by
  obtain ⟨hf, hfe, hd, -, hfa, -, hab, hbo1, hnb, -⟩ := esp32_flush_buffer_quiet B h hok hq
  have hne : h.aBuffer ≠ none := by simp [hbuf]
  have hnb0 : hf.nBuffer = 0 := hnb hne
  have hab1 : hf.aBuffer = some buf := by rw [hab, hbuf]
  have hl : (buf.length : Int) = B := hok.2.2 buf hbuf
  have hfl : h.nBuffer = B ∨ h.iBufferOfst + h.nBuffer ≠ i := Or.inr (fun e => hi e.symm)
  have hdat : hf.f.data = writeAt h.f.data h.iBufferOfst.toNat (buf.take h.nBuffer.toNat) := by
    rw [hd]
    simp [view, hbuf]
  obtain ⟨c, hc⟩ : ∃ c : Int, c = if B - 0 > n then n else B - 0 := ⟨_, rfl⟩
  have hc1 : 1 ≤ c := by rw [hc]; split <;> omega
  have hc2 : c ≤ n := by rw [hc]; split <;> omega
  have hc3 : c ≤ B := by rw [hc]; split <;> omega
  have hcz : c.toNat ≤ z.length := by omega
  have hcb : 0 + c.toNat ≤ buf.length := by omega
  have hstep : esp32_write_step B h z n i = some (.copied c
      { hf with iBufferOfst := i - 0, aBuffer := some (memcpy buf (0 : Int).toNat z c.toNat), nBuffer := 0 + c }) := by
    simp only [esp32_write_step, if_pos hfl, hfe, hnb0, hab1]
    rw [← hc]
    simp
    omega
  have hok1 : BufferOk B { hf with iBufferOfst := i - 0, aBuffer := some (memcpy buf (0 : Int).toNat z c.toNat), nBuffer := 0 + c } := by
    refine ⟨by simp; omega, by simp; omega, ?_⟩
    intro b hb2
    simp at hb2
    subst hb2
    rw [length_memcpy buf z 0 c.toNat hcb hcz]
    exact hl
  have hzd : n - c ≤ ((z.drop c.toNat).length : Int) := by
    rw [List.length_drop]
    omega
  obtain ⟨k, hk⟩ : ∃ k, n.toNat = k + 1 := ⟨n.toNat - 1, by omega⟩
  obtain ⟨h2, buf2, t, hloop, ht1, ht0, htn, hdata2, hbo2, hnb2, hab2, hbuf2⟩ :=
    esp32_write_loop_tail B hB k _ (memcpy buf (0 : Int).toNat z c.toNat) (z.drop c.toNat)
      (n - c) (i + c) hok1 ⟨hfa, by simp; omega⟩ rfl (by simp) (by omega) hzd (by omega)
  simp only [] at ht1 ht0 htn hdata2 hbo2 hnb2 hbuf2
  have htlt : (t : Int) < n := by
    by_cases hrest : 0 < n - c
    · have := htn hrest
      omega
    · have := ht0 (by omega)
      omega
  have hL : (memcpy buf (0 : Int).toNat z c.toNat).take (0 + c).toNat
      ++ (z.drop c.toNat).take (n - c).toNat = z.take n.toNat := by
    have e1 : (0 + c).toNat = 0 + c.toNat := by omega
    have e2 : n.toNat = c.toNat + (n - c).toNat := by omega
    rw [e1, show (0 : Int).toNat = 0 from rfl, take_memcpy buf z 0 c.toNat (by omega) hcz,
      e2, List.take_add]
    simp
  rw [hL] at hdata2 hbuf2
  have htt : (z.take n.toNat).take t = z.take t := by
    rw [List.take_take]
    congr 1
    omega
  refine ⟨hf, h2, buf2, t, hfe, hdat, ?_, htlt, fun hfit => ht0 (by omega), ?_,
    by rw [hbo2]; omega, by rw [hnb2]; omega, hab2, ?_⟩
  · rw [show esp32_write B h z n i = esp32_write_loop B (k + 1) h z n i by
      simp only [esp32_write, hbuf, hk]]
    rw [esp32_write_loop]
    simp only [if_pos (show n > 0 by omega), hstep]
    exact hloop
  · rw [hdata2, htt]
    congr 1
    omega
  · have e4 : (n - (t : Int)).toNat = (0 + c + (n - c) - (t : Int)).toNat := by omega
    rw [e4, hbuf2]

/-- C5, amended: take a handle on which all I/O succeeds and a capacity
`BUFFERSZ ≥ 1`.  (1) If its staging buffer holds `m ≥ 1` bytes for the offsets
`[iBufferOfst, iBufferOfst + m)`, a write of `n ≥ 1` bytes at an offset
`i ≥ 0` with `i ≠ iBufferOfst + m` returns `SQLITE_OK` and first direct-writes
the `m` buffered bytes at `iBufferOfst` (`esp32_flush_buffer`), only then
staging new bytes.  Afterwards the buffer holds only bytes of the new write:
its last `n - t` bytes, for the offsets from `i + t` on, the first `t < n`
bytes having been written through at `i`.  When `n ≤ BUFFERSZ`, `t = 0`: the
buffer holds the whole new write starting at offset `i`, and the stream and
the logical size are as the flush left them.  Storage holds the old run at
its offsets when `n ≤ BUFFERSZ` or the new range does not overlap it.
(2) A write of `a` at `o1`, then a write starting at or behind its end (so
write `[0,10)`, write `[20,30)`), then a read of the first range returns the
bytes of the first write, for every capacity and all sizes. -/
theorem C5_noncontiguous_write (B : Int) (hB : 1 ≤ B) (h : esp32_file_t)
    (hok : BufferOk B h) (hq : Quiet h) :
    (∀ (buf z : List Byte) (n i : Int), h.aBuffer = some buf → 1 ≤ h.nBuffer →
      1 ≤ n → n ≤ z.length → 0 ≤ i → i ≠ h.iBufferOfst + h.nBuffer →
      ∃ (hf h2 : esp32_file_t) (buf2 : List Byte) (t : Nat),
        esp32_flush_buffer h = (SQLITE_OK, hf) ∧
        hf.f.data = writeAt h.f.data h.iBufferOfst.toNat (buf.take h.nBuffer.toNat) ∧
        esp32_write B h z n i = some (SQLITE_OK, h2) ∧
        (t : Int) < n ∧
        h2.f.data = writeAt hf.f.data i.toNat (z.take t) ∧
        h2.iBufferOfst = i + t ∧ h2.nBuffer = n - t ∧ h2.aBuffer = some buf2 ∧
        buf2.take (n - t).toNat = (z.take n.toNat).drop t ∧
        (n ≤ B → t = 0 ∧ h2.f = hf.f ∧ h2.size = hf.size) ∧
        (n ≤ B ∨ i + n ≤ h.iBufferOfst ∨ h.iBufferOfst + h.nBuffer ≤ i →
          (h2.f.data.drop h.iBufferOfst.toNat).take h.nBuffer.toNat
            = buf.take h.nBuffer.toNat)) ∧
    (∀ (a b : List Byte) (o1 o2 : Int), a ≠ [] → b ≠ [] → 0 ≤ o1 → o1 + a.length ≤ o2 →
      ∃ h2 h3, runWrites B h [⟨a, a.length, o1⟩, ⟨b, b.length, o2⟩]
          = some ([SQLITE_OK, SQLITE_OK], h2) ∧
        esp32_read h2 a.length o1 = (SQLITE_OK, a, h3)) := by
  refine ⟨?_, fun a b o1 o2 ha hb ho1 ho2 =>
    write_write_read_first B hB h a b o1 o2 hok hq ha hb ho1 ho2⟩
  intro buf z n i hbuf hm hn1 hz hi0 hi
  obtain ⟨hf, h2, buf2, t, hfe, hdat, hw, htn, ht0, hdata2, hbo2, hnb2, hab2, hbuf2⟩ :=
    esp32_write_noncontiguous_any B hB h buf z n i hok hq hbuf hn1 hz hi0 hi
  have hl : (buf.length : Int) = B := hok.2.2 buf hbuf
  have hlen : (buf.take h.nBuffer.toNat).length = h.nBuffer.toNat := by
    rw [List.length_take]
    have := hok.2.1
    omega
  have hold : (hf.f.data.drop h.iBufferOfst.toNat).take h.nBuffer.toNat
      = buf.take h.nBuffer.toNat := by
    have := read_writeAt h.f.data h.iBufferOfst.toNat (buf.take h.nBuffer.toNat)
    rw [hlen] at this
    rw [hdat]
    exact this
  have hne : buf.take h.nBuffer.toNat ≠ [] := by
    intro e
    rw [e] at hlen
    simp at hlen
    omega
  have hflen : h.iBufferOfst.toNat + h.nBuffer.toNat ≤ hf.f.data.length := by
    have := length_writeAt_ge h.f.data h.iBufferOfst.toNat _ hne
    rw [hlen] at this
    rw [hdat]
    exact this
  have hzt : (z.take t).length = t := by
    rw [List.length_take]
    omega
  refine ⟨hf, h2, buf2, t, hfe, hdat, hw, htn, hdata2, hbo2, hnb2, hab2, hbuf2, ?_, ?_⟩
  · intro hfit
    obtain ⟨hf3, h3, hfe3, hw3, e1, e2, -⟩ :=
      esp32_write_noncontiguous B h buf z n i hok hq hbuf hm hn1 hfit hz hi
    have eh : h3 = h2 := by
      rw [hw] at hw3
      simp only [Option.some.injEq, Prod.mk.injEq, true_and] at hw3
      exact hw3.symm
    have ef : hf3 = hf := by
      rw [hfe] at hfe3
      simp only [Prod.mk.injEq, true_and] at hfe3
      exact hfe3.symm
    subst eh ef
    exact ⟨ht0 hfit, e1, e2⟩
  · intro hcase
    have hbo : 0 ≤ h.iBufferOfst := hq.2
    rcases hcase with hfit | hbelow | habove
    · have := ht0 hfit
      subst this
      rw [hdata2]
      simpa [writeAt_nil] using hold
    · rw [hdata2, drop_writeAt_above _ _ _ _ (by rw [hzt]; omega)]
      exact hold
    · rw [hdata2, read_writeAt_below _ _ _ _ _ (by omega) hflen]
      exact hold

theorem C5_noncontiguous_write_witness :
    (∃ (hf h2 : esp32_file_t) (buf2 : List Byte) (t : Nat),
      esp32_flush_buffer hHalf4 = (SQLITE_OK, hf) ∧
      hf.f.data = writeAt hHalf4.f.data hHalf4.iBufferOfst.toNat
        (List.take hHalf4.nBuffer.toNat [1, 2, 0, 0]) ∧
      esp32_write 4 hHalf4 [7, 8, 9, 10, 11, 12] 6 20 = some (SQLITE_OK, h2) ∧
      (t : Int) < 6 ∧
      h2.f.data = writeAt hf.f.data (20 : Int).toNat (List.take t [7, 8, 9, 10, 11, 12]) ∧
      h2.iBufferOfst = 20 + t ∧ h2.nBuffer = 6 - t ∧ h2.aBuffer = some buf2 ∧
      buf2.take (6 - (t : Int)).toNat
        = (List.take (6 : Int).toNat [7, 8, 9, 10, 11, 12]).drop t ∧
      ((6 : Int) ≤ 4 → t = 0 ∧ h2.f = hf.f ∧ h2.size = hf.size) ∧
      ((6 : Int) ≤ 4 ∨ (20 : Int) + 6 ≤ hHalf4.iBufferOfst ∨
          hHalf4.iBufferOfst + hHalf4.nBuffer ≤ 20 →
        (h2.f.data.drop hHalf4.iBufferOfst.toNat).take hHalf4.nBuffer.toNat
          = List.take hHalf4.nBuffer.toNat [1, 2, 0, 0])) ∧
    (∃ h2 h3, runWrites 4 hHalf4
        [⟨[1, 2, 3, 4, 5, 6, 7, 8, 9, 10], ([1, 2, 3, 4, 5, 6, 7, 8, 9, 10] : List Byte).length, 0⟩,
         ⟨[11, 12, 13, 14, 15, 16, 17, 18, 19, 20],
          ([11, 12, 13, 14, 15, 16, 17, 18, 19, 20] : List Byte).length, 20⟩]
          = some ([SQLITE_OK, SQLITE_OK], h2) ∧
      esp32_read h2 ([1, 2, 3, 4, 5, 6, 7, 8, 9, 10] : List Byte).length 0
        = (SQLITE_OK, [1, 2, 3, 4, 5, 6, 7, 8, 9, 10], h3)) :=
  ⟨(C5_noncontiguous_write 4 (by decide) hHalf4 (by decide) (by decide)).1
      [1, 2, 0, 0] [7, 8, 9, 10, 11, 12] 6 20 rfl (by decide) (by decide) (by decide)
      (by decide) (by decide),
    (C5_noncontiguous_write 4 (by decide) hHalf4 (by decide) (by decide)).2
      [1, 2, 3, 4, 5, 6, 7, 8, 9, 10] [11, 12, 13, 14, 15, 16, 17, 18, 19, 20] 0 20
      (by decide) (by decide) (by decide) (by decide)⟩

/-! ## Buffer occupancy and progress of the write loop, with failing I/O -/

theorem esp32_direct_write_frame (p : esp32_file_t) (z : List Byte) (n o : Int) :
    (esp32_direct_write p z n o).2.aBuffer = p.aBuffer ∧
    (esp32_direct_write p z n o).2.nBuffer = p.nBuffer ∧
    (esp32_direct_write p z n o).2.iBufferOfst = p.iBufferOfst := by
  unfold esp32_direct_write
  simp only []
  split
  · exact ⟨rfl, rfl, rfl⟩
  · split
    · exact ⟨rfl, rfl, rfl⟩
    · split <;> exact ⟨rfl, rfl, rfl⟩

theorem esp32_flush_buffer_frame (h : esp32_file_t) :
    (esp32_flush_buffer h).2.aBuffer = h.aBuffer ∧
    (esp32_flush_buffer h).2.iBufferOfst = h.iBufferOfst ∧
    (h.aBuffer ≠ none → (esp32_flush_buffer h).2.nBuffer = 0) ∧
    (h.aBuffer = none → esp32_flush_buffer h = (SQLITE_OK, h)) := by
  cases hb : h.aBuffer with
  | none => simp [esp32_flush_buffer, hb]
  | some buf =>
    obtain ⟨h1, -, h3⟩ := esp32_direct_write_frame h buf h.nBuffer h.iBufferOfst
    simp [esp32_flush_buffer, hb, h1, h3]

theorem esp32_flush_buffer_ok (B : Int) (h : esp32_file_t) (hok : BufferOk B h) :
    BufferOk B (esp32_flush_buffer h).2 := by
  obtain ⟨h1, -, h3, h4⟩ := esp32_flush_buffer_frame h
  obtain ⟨k0, k1, k2⟩ := hok
  by_cases hb : h.aBuffer = none
  · rw [h4 hb]
    exact ⟨k0, k1, k2⟩
  · refine ⟨by rw [h3 hb], by rw [h3 hb]; omega, ?_⟩
    rw [h1]
    exact k2

/-- One iteration of the loop of `esp32_write` on a handle whose occupancy is
in bounds, whatever the I/O does: either the flush fails and the function
returns its code, or `nCopy = min (n, BUFFERSZ - m) ≥ 1` bytes are staged
behind the `m` bytes in the buffer; the occupancy stays in bounds. -/
theorem esp32_write_step_ok (B : Int) (h : esp32_file_t) (z : List Byte) (n i : Int)
    (hB : 1 ≤ B) (hok : BufferOk B h) (hbuf : h.aBuffer ≠ none) (hn : 0 < n)
    (hz : n ≤ z.length) :
    (∃ rc h1, esp32_write_step B h z n i = some (.failed rc h1) ∧ rc ≠ SQLITE_OK ∧
      BufferOk B h1 ∧ h1.aBuffer ≠ none) ∨
    (∃ c h1 m, esp32_write_step B h z n i = some (.copied c h1) ∧ 0 ≤ m ∧
      c = min n (B - m) ∧ 1 ≤ c ∧ h1.nBuffer = m + c ∧ BufferOk B h1 ∧ h1.aBuffer ≠ none) := by
  obtain ⟨buf, hb⟩ : ∃ buf, h.aBuffer = some buf := by
    cases hx : h.aBuffer with
    | none => exact absurd hx hbuf
    | some buf => exact ⟨buf, rfl⟩
  have hok2 := hok
  obtain ⟨h0, hle, hlen⟩ := hok2
  have hl := hlen buf hb
  by_cases hfl : h.nBuffer = B ∨ h.iBufferOfst + h.nBuffer ≠ i
  · obtain ⟨f1, f2, f3, -⟩ := esp32_flush_buffer_frame h
    have hokf := esp32_flush_buffer_ok B h hok
    have hnb0 := f3 hbuf
    have hab1 : (esp32_flush_buffer h).2.aBuffer = some buf := by rw [f1, hb]
    by_cases hrc : (esp32_flush_buffer h).1 = SQLITE_OK
    · right
      obtain ⟨c, hc⟩ : ∃ c : Int, c = if B - 0 > n then n else B - 0 := ⟨_, rfl⟩
      have hc0 : c = min n (B - 0) := by rw [hc]; split <;> omega
      have hc1 : 1 ≤ c := by omega
      have hcz : c.toNat ≤ z.length := by omega
      have hcb : 0 + c.toNat ≤ buf.length := by omega
      refine ⟨c, { (esp32_flush_buffer h).2 with
                    iBufferOfst := i - 0,
                    aBuffer := some (memcpy buf (0 : Int).toNat z c.toNat),
                    nBuffer := 0 + c }, 0, ?_, le_refl _, hc0, hc1, rfl, ?_, by simp⟩
      · simp only [esp32_write_step, if_pos hfl, hrc, hnb0, hab1]
        rw [← hc]
        simp
        omega
      · refine ⟨by simp; omega, by simp; omega, ?_⟩
        intro b hb2
        simp at hb2
        subst hb2
        rw [length_memcpy buf z 0 c.toNat hcb hcz]
        exact hl
    · left
      refine ⟨(esp32_flush_buffer h).1, (esp32_flush_buffer h).2, ?_, hrc, hokf, by
        rw [f1]; exact hbuf⟩
      simp only [esp32_write_step, if_pos hfl]
      simp [hrc]
  · right
    have hnB : h.nBuffer ≠ B := fun e => hfl (Or.inl e)
    have hadj : h.iBufferOfst + h.nBuffer = i := by
      by_contra e
      exact hfl (Or.inr e)
    obtain ⟨c, hc⟩ : ∃ c : Int, c = if B - h.nBuffer > n then n else B - h.nBuffer := ⟨_, rfl⟩
    have hc0 : c = min n (B - h.nBuffer) := by rw [hc]; split <;> omega
    have hc1 : 1 ≤ c := by omega
    have hcz : c.toNat ≤ z.length := by omega
    have hcb : h.nBuffer.toNat + c.toNat ≤ buf.length := by omega
    refine ⟨c, { h with iBufferOfst := i - h.nBuffer,
                        aBuffer := some (memcpy buf h.nBuffer.toNat z c.toNat),
                        nBuffer := h.nBuffer + c }, h.nBuffer, ?_, h0, hc0, hc1, rfl, ?_,
      by simp⟩
    · simp only [esp32_write_step, if_neg hfl, hb]
      rw [← hc]
      simp [hadj]
      omega
    · refine ⟨by simp; omega, by simp; omega, ?_⟩
      intro b hb2
      simp at hb2
      subst hb2
      rw [length_memcpy buf z _ c.toNat hcb hcz]
      exact hl

/-- The loop of `esp32_write` on a handle whose occupancy is in bounds,
whatever the I/O does: it ends within `n` iterations, with the occupancy in
bounds. -/
theorem esp32_write_loop_ok (B : Int) (hB : 1 ≤ B) (fuel : Nat) :
    ∀ (h : esp32_file_t) (z : List Byte) (n i : Int), BufferOk B h → h.aBuffer ≠ none →
      n ≤ z.length → n.toNat ≤ fuel →
      ∃ rc h2, esp32_write_loop B fuel h z n i = some (rc, h2) ∧ BufferOk B h2 := by
  induction fuel with
  | zero =>
    intro h z n i hok _ _ hfuel
    exact ⟨_, h, esp32_write_loop_done B 0 h z n i (by omega), hok⟩
  | succ fuel ih =>
    intro h z n i hok hbuf hz hfuel
    by_cases hpos : n > 0
    · rcases esp32_write_step_ok B h z n i hB hok hbuf hpos hz with
        ⟨rc, h1, hstep, -, hok1, -⟩ | ⟨c, h1, m, hstep, hm, hc, hc1, -, hok1, hbuf1⟩
      · refine ⟨rc, h1, ?_, hok1⟩
        rw [esp32_write_loop]
        simp only [if_pos hpos, hstep]
      · have hzd : n - c ≤ ((z.drop c.toNat).length : Int) := by
          rw [List.length_drop]
          omega
        obtain ⟨rc, h2, hloop, hok2⟩ :=
          ih h1 (z.drop c.toNat) (n - c) (i + c) hok1 hbuf1 hzd (by omega)
        refine ⟨rc, h2, ?_, hok2⟩
        rw [esp32_write_loop]
        simp only [if_pos hpos, hstep]
        exact hloop
    · exact ⟨_, h, esp32_write_loop_done B _ h z n i hpos, hok⟩

/-- A larger iteration budget does not change the result of the loop. -/
theorem esp32_write_loop_fuel_mono (B : Int) (fuel : Nat) :
    ∀ (fuel2 : Nat) (h : esp32_file_t) (z : List Byte) (n i : Int)
      (r : Int × esp32_file_t), fuel ≤ fuel2 →
      esp32_write_loop B fuel h z n i = some r →
      esp32_write_loop B fuel2 h z n i = some r := by
  induction fuel with
  | zero =>
    intro fuel2 h z n i r _ hr
    by_cases hpos : n > 0
    · simp [esp32_write_loop, hpos] at hr
    · rw [esp32_write_loop_done B 0 h z n i hpos] at hr
      rw [esp32_write_loop_done B fuel2 h z n i hpos]
      exact hr
  | succ fuel ih =>
    intro fuel2 h z n i r hle hr
    by_cases hpos : n > 0
    · obtain ⟨k, rfl⟩ : ∃ k, fuel2 = k + 1 := ⟨fuel2 - 1, by omega⟩
      rw [esp32_write_loop] at hr ⊢
      simp only [if_pos hpos] at hr ⊢
      cases hs : esp32_write_step B h z n i with
      | none => simp [hs] at hr
      | some s =>
        cases s with
        | failed rc p1 =>
          simp only [hs] at hr ⊢
          exact hr
        | copied c p1 =>
          simp only [hs] at hr ⊢
          exact ih k p1 _ _ _ r (by omega) hr
    · rw [esp32_write_loop_done B _ h z n i hpos] at hr
      rw [esp32_write_loop_done B fuel2 h z n i hpos]
      exact hr

theorem esp32_open_fresh (B : Int) (pl : Platform) (zName : Option String) (flags : Nat)
    (rc : Int) (h : esp32_file_t) (ho : esp32_open B pl zName flags = (rc, some h)) :
    h.nBuffer = 0 ∧ h.aBuffer = none ∧ h.iBufferOfst = 0 := by
  unfold esp32_open at ho
  cases zName with
  | none => simp at ho
  | some name =>
    simp only [Bool.false_and, Bool.false_eq_true, if_false] at ho
    split at ho
    · simp at ho
    · split at ho
      · simp at ho
      · simp only [Prod.mk.injEq, Option.some.injEq] at ho
        obtain ⟨-, rfl⟩ := ho
        exact ⟨rfl, rfl, rfl⟩

theorem esp32_read_ok (B : Int) (h : esp32_file_t) (n o : Int) (hok : BufferOk B h) :
    BufferOk B (esp32_read h n o).2.2 := by
  have hokf := esp32_flush_buffer_ok B h hok
  unfold esp32_read
  simp only []
  split
  · exact hokf
  · split
    · exact hokf
    · split
      · exact hokf
      · split <;> exact hokf

theorem esp32_sync_ok (B : Int) (h : esp32_file_t) (hok : BufferOk B h) :
    BufferOk B (esp32_sync h).2 := by
  have hokf := esp32_flush_buffer_ok B h hok
  unfold esp32_sync
  simp only []
  split <;> exact hokf

theorem esp32_file_size_ok (B : Int) (h : esp32_file_t) (hok : BufferOk B h) :
    BufferOk B (esp32_file_size h).2.2 := by
  have hokf := esp32_flush_buffer_ok B h hok
  unfold esp32_file_size
  simp only []
  split <;> exact hokf

theorem esp32_close_ok (B : Int) (h : esp32_file_t) (hok : BufferOk B h) :
    BufferOk B (esp32_close h).2 :=
  esp32_flush_buffer_ok B h hok

theorem esp32_write_ok (B : Int) (hB : 1 ≤ B) (h : esp32_file_t) (z : List Byte) (n i : Int)
    (hok : BufferOk B h) (hz : n ≤ z.length) :
    ∃ rc h2, esp32_write B h z n i = some (rc, h2) ∧ BufferOk B h2 := by
  cases hb : h.aBuffer with
  | none =>
    obtain ⟨f1, f2, -⟩ := esp32_direct_write_frame h z n i
    refine ⟨(esp32_direct_write h z n i).1, (esp32_direct_write h z n i).2, by
      simp [esp32_write, hb], ?_⟩
    exact ⟨by rw [f2]; exact hok.1, by rw [f2]; exact hok.2.1, by rw [f1]; exact hok.2.2⟩
  | some buf =>
    obtain ⟨rc, h2, hloop, hok2⟩ :=
      esp32_write_loop_ok B hB n.toNat h z n i hok (by simp [hb]) hz (le_refl _)
    exact ⟨rc, h2, by simp only [esp32_write, hb]; exact hloop, hok2⟩

/-- C10: for a staging buffer of `BUFFERSZ ≥ 1` bytes, `0 ≤ nBuffer ≤ BUFFERSZ`
(with the buffer, when present, an array of `BUFFERSZ` bytes) holds for the
handle that `esp32_open` returns and is preserved by `esp32_flush_buffer`,
`esp32_read`, `esp32_sync`, `esp32_file_size`, `esp32_close` and `esp32_write`,
whatever faults the stream injects, so also when a flush fails; `esp32_write`
returns within its budget of `iAmt` iterations; and an iteration of its loop
either returns the code of a failed flush or stages
`nCopy = min (n, BUFFERSZ - m)` bytes with `nCopy ≥ 1` behind the `m` bytes
already in the buffer, inside the buffer. -/
theorem C10_buffer_bounds (B : Int) (hB : 1 ≤ B) :
    (∀ pl zName flags rc h, esp32_open B pl zName flags = (rc, some h) → BufferOk B h) ∧
    (∀ h, BufferOk B h →
      BufferOk B (esp32_flush_buffer h).2 ∧
      (∀ iAmt iOfst, BufferOk B (esp32_read h iAmt iOfst).2.2) ∧
      BufferOk B (esp32_sync h).2 ∧
      BufferOk B (esp32_file_size h).2.2 ∧
      BufferOk B (esp32_close h).2 ∧
      (∀ (z : List Byte) (iAmt iOfst : Int), iAmt ≤ z.length →
        ∃ rc h2, esp32_write B h z iAmt iOfst = some (rc, h2) ∧ BufferOk B h2)) ∧
    (∀ h (z : List Byte) (n i : Int), BufferOk B h → h.aBuffer ≠ none → 0 < n →
      n ≤ z.length →
      (∃ rc h1, esp32_write_step B h z n i = some (.failed rc h1) ∧ rc ≠ SQLITE_OK ∧
        BufferOk B h1) ∨
      (∃ c h1 m, esp32_write_step B h z n i = some (.copied c h1) ∧ 0 ≤ m ∧
        c = min n (B - m) ∧ 1 ≤ c ∧ h1.nBuffer = m + c ∧ BufferOk B h1)) := by
  refine ⟨?_, ?_, ?_⟩
  · intro pl zName flags rc h ho
    obtain ⟨h1, h2, -⟩ := esp32_open_fresh B pl zName flags rc h ho
    exact ⟨by rw [h1], by rw [h1]; omega, by simp [h2]⟩
  · intro h hok
    exact ⟨esp32_flush_buffer_ok B h hok, fun n o => esp32_read_ok B h n o hok,
      esp32_sync_ok B h hok, esp32_file_size_ok B h hok, esp32_close_ok B h hok,
      fun z n i hz => esp32_write_ok B hB h z n i hok hz⟩
  · intro h z n i hok hbuf hn hz
    rcases esp32_write_step_ok B h z n i hB hok hbuf hn hz with
      ⟨rc, h1, hs, hrc, hok1, -⟩ | ⟨c, h1, m, hs, hm, hc, hc1, hnb, hok1, -⟩
    · exact Or.inl ⟨rc, h1, hs, hrc, hok1⟩
    · exact Or.inr ⟨c, h1, m, hs, hm, hc, hc1, hnb, hok1⟩

theorem C10_buffer_bounds_witness :
    BufferOk 4 (esp32_flush_buffer hFaulty).2 ∧
    (∃ rc h2, esp32_write 4 hFaulty [7, 8, 9, 10, 11, 12] 6 20 = some (rc, h2) ∧
      BufferOk 4 h2) ∧
    ((∃ rc h1, esp32_write_step 4 hHalf4 [7, 8, 9] 3 2 = some (.failed rc h1) ∧
        rc ≠ SQLITE_OK ∧ BufferOk 4 h1) ∨
      (∃ c h1 m, esp32_write_step 4 hHalf4 [7, 8, 9] 3 2 = some (.copied c h1) ∧ 0 ≤ m ∧
        c = min 3 (4 - m) ∧ 1 ≤ c ∧ h1.nBuffer = m + c ∧ BufferOk 4 h1)) :=
  ⟨((C10_buffer_bounds 4 (by decide)).2.1 hFaulty (by decide)).1,
    ((C10_buffer_bounds 4 (by decide)).2.1 hFaulty (by decide)).2.2.2.2.2
      [7, 8, 9, 10, 11, 12] 6 20 (by decide),
    (C10_buffer_bounds 4 (by decide)).2.2 hHalf4 [7, 8, 9] 3 2 (by decide) (by decide)
      (by decide) (by decide)⟩

end Esp32
